import Mathlib

/-!
# Order-book replay (`akuna_taylor_randy.cpp`): shallow embedding and properties

The development has four layers.

* **Containers and records.** `std::map<K, V>` is the list of its entries in iteration
  order (`StdMap`); the representation invariant of the C++ container, strictly ascending
  keys, is `StdMap.WF`, and every operation preserves it.  `std::set<T>` is a map to
  `Unit`.  The packed structs `Header`, `OrderEntry`, `OrderAck`, `OrderFill`,
  `CounterParty` are records whose integer fields are natural numbers; a `std::string`
  built from a `char` array is the list of its bytes, ordered lexicographically by
  unsigned byte value as `std::string` comparison does.
* **The book.** `OrderBook.Add`, `OrderBook.Ack`, `OrderBook.Fill` thread the book
  explicitly.  Assertions are taken as enabled: an `assert` that fails ends the
  operation, and the outcome carries the book as it is at that statement together with
  the violation the assertion stands for (`assert(pr.second)` in `Add` is
  DuplicatePending, and so on).
* **The frame reader.** `Producer.GetMsg` runs over an explicit `std::istream` state
  (remaining bytes, `eofbit`, `failbit`); the buffer is a list of bytes and pointers into
  it are byte offsets.  Multi-byte fields are read least significant byte first.  The one
  byte the reader takes from behind a buffer that is too short (the count field of a
  short Fill frame) is a parameter, `past`, and every statement holds for all its values.

* **Queries and runs.** `GetMostActiveTrader` and `GetMostLiquidTrader` share the scan
  `maxScan`; a failed `assert(!trader.empty())` is the result `none`.  `OrderBook.run`
  applies a list of events from a book and ends at the first violation.

Fixed-width arithmetic is written out: `uint64_t` additions are taken `% 2^64`,
`uint32_t` additions `% 2^32`.
-/

namespace OrderBookReplay

/-! ## `std::map` and `std::set` -/

/-- A `std::map<K, V>`: the entries in iteration order.  A container built by the
operations below from `StdMap.empty` has strictly ascending keys (`StdMap.WF`). -/
structure StdMap (K : Type) (V : Type) where
  entries : List (K × V)
deriving DecidableEq, Repr

/-- A `std::set<T>` is a map whose values carry no information. -/
abbrev StdSet (T : Type) := StdMap T Unit

namespace StdMap

variable {K V : Type}

/-- The default-constructed container. -/
def empty : StdMap K V := ⟨[]⟩

/-- Value stored under `k` in a list of entries, if any. -/
def lookupKV [LinearOrder K] (k : K) : List (K × V) → Option V
  | [] => none
  | (k', v) :: t => if k' = k then some v else lookupKV k t

/-- Ordered insertion of a key that is not present: the new entry goes in front of
the first entry whose key is not smaller. -/
def insertKV [LinearOrder K] (k : K) (v : V) : List (K × V) → List (K × V)
  | [] => [(k, v)]
  | (k', v') :: t => if k' < k then (k', v') :: insertKV k v t else (k, v) :: (k', v') :: t

/-- Removal of the entry stored under `k`. -/
def eraseKV [LinearOrder K] (k : K) : List (K × V) → List (K × V)
  | [] => []
  | (k', v) :: t => if k' = k then t else (k', v) :: eraseKV k t

/-- Overwrite the value of the entry stored under `k`. -/
def assignKV [LinearOrder K] (k : K) (v : V) : List (K × V) → List (K × V)
  | [] => []
  | (k', v') :: t => if k' = k then (k', v) :: t else (k', v') :: assignKV k v t

/-- The call `m.find(k)`: `none` is `m.end()`, `some v` an iterator whose `second` is `v`. -/
def find [LinearOrder K] (m : StdMap K V) (k : K) : Option V := lookupKV k m.entries

/-- The call `m.insert(make_pair(k, v))`: the container afterwards and the `second` of the
returned pair.  An entry already stored under `k` is kept and the flag is `false`. -/
def insert [LinearOrder K] (m : StdMap K V) (k : K) (v : V) : StdMap K V × Bool :=
  match m.find k with
  | some _ => (m, false)
  | none => (⟨insertKV k v m.entries⟩, true)

/-- The call `m.erase(itr)` for the iterator `itr = m.find(k)`. -/
def erase [LinearOrder K] (m : StdMap K V) (k : K) : StdMap K V := ⟨eraseKV k m.entries⟩

/-- The assignment `itr->second = v` for the iterator `itr = m.find(k)`. -/
def assign [LinearOrder K] (m : StdMap K V) (k : K) (v : V) : StdMap K V :=
  ⟨assignKV k v m.entries⟩

/-- The keys in iteration order. -/
def keys (m : StdMap K V) : List K := m.entries.map Prod.fst

/-- Representation invariant of `std::map`: keys strictly ascending, hence unique. -/
def WF [LinearOrder K] (m : StdMap K V) : Prop := m.entries.Pairwise (fun a b => a.1 < b.1)

instance [LinearOrder K] (m : StdMap K V) : Decidable m.WF := by
  unfold WF; infer_instance

end StdMap

/-! ## Wire records (`#pragma pack(push,1)` structs) -/

/-- A `std::string` built from a fixed-width `char` field: its bytes, each `0..255`. -/
abbrev ByteString := List Nat

/-- The type `trader_tag_type`. -/
abbrev trader_tag_type := ByteString

/-- Constant `MsgType::ENTRY`. -/
def MsgType.ENTRY : Nat := 1
/-- Constant `MsgType::ACK`. -/
def MsgType.ACK : Nat := 2
/-- Constant `MsgType::FILL`. -/
def MsgType.FILL : Nat := 3
/-- Constant `MsgDirection::TO_EXCH`. -/
def MsgDirection.TO_EXCH : Nat := 0
/-- Constant `MsgDirection::FROM_EXCH`. -/
def MsgDirection.FROM_EXCH : Nat := 1
/-- Constant `OrderStatus::GOOD`. -/
def OrderStatus.GOOD : Nat := 1
/-- Constant `OrderStatus::REJECT`. -/
def OrderStatus.REJECT : Nat := 2
/-- Constant `TimeInForce::TIF_IOC`. -/
def TimeInForce.TIF_IOC : Nat := 1
/-- Constant `TimeInForce::TIF_GFD`. -/
def TimeInForce.TIF_GFD : Nat := 2

/-- The struct `Header` (22 bytes). -/
structure Header where
  marker : Nat
  msg_type : Nat
  sequence_id : Nat
  timestamp : Nat
  msg_direction : Nat
  msg_len : Nat
deriving DecidableEq, Repr

/-- The struct `OrderEntry` (322 bytes).  `qty` is the `uint32_t` that `OrderBook::Fill`
decrements in place. -/
structure OrderEntry extends Header where
  price : Nat
  qty : Nat
  instrument : ByteString
  side : Nat
  client_id : Nat
  time_in_force : Nat
  trader_tag : ByteString
  firm_id : Nat
  firm : ByteString
  termination_string : ByteString
deriving DecidableEq, Repr

/-- The struct `OrderAck` (44 bytes). -/
structure OrderAck extends Header where
  order_id : Nat
  client_id : Nat
  order_status : Nat
  reject_code : Nat
  termination_string : ByteString
deriving DecidableEq, Repr

/-- The struct `CounterParty` (8 bytes). -/
structure CounterParty where
  firm_id : Nat
  trader_tag : ByteString
  qty : Nat
deriving DecidableEq, Repr

/-- The struct `OrderFill` (39 bytes, the counterparty records follow it). -/
structure OrderFill extends Header where
  order_id : Nat
  fill_price : Nat
  fill_qty : Nat
  no_of_contras : Nat
deriving DecidableEq, Repr

/-- A fill message as `OrderBook::Fill` reads it: `GetAsOrderFill()` and the
`GetCountCounterParty()` records addressed by `GetCounterParty()`, in order. -/
structure FillMsg where
  fill : OrderFill
  contra : List CounterParty
deriving DecidableEq, Repr

/-! ## `class OrderBook` -/

/-- The data members of `OrderBook`.  The two order maps hold the entry message of
each order; a message is held by one map slot at a time, so the shared pointer is
modelled by the value it points to. -/
structure OrderBook where
  pending_orders : StdMap Nat OrderEntry
  resting_orders : StdMap Nat OrderEntry
  vol_per_instrument : StdMap ByteString Nat
  liquidity_per_trader : StdMap trader_tag_type Nat
  vol_per_trader : StdMap ByteString Nat
  client_to_traders : StdMap Nat (StdSet ByteString)
  trader_to_clients : StdMap ByteString (StdSet Nat)
deriving DecidableEq, Repr

/-- What a failed assertion of the order book stands for. -/
inductive Violation where
  | DuplicatePending
  | UnknownPendingOrder
  | DuplicateResting
  | UnknownRestingOrder
  | OverFill
deriving DecidableEq, Repr

/-- Result of one operation: the book when the operation stopped, and the violation
signalled by a failed assertion (`none` when the operation ran to its end). -/
structure Outcome where
  book : OrderBook
  violation : Option Violation
deriving DecidableEq, Repr

namespace OrderBook

/-- A freshly constructed book. -/
def empty : OrderBook :=
  ⟨StdMap.empty, StdMap.empty, StdMap.empty, StdMap.empty, StdMap.empty, StdMap.empty,
    StdMap.empty⟩

/-- The block of `Add` that records the trader under the client. -/
def addClientToTraders (m : StdMap Nat (StdSet ByteString)) (order : OrderEntry) :
    StdMap Nat (StdSet ByteString) :=
  match m.find order.client_id with
  | none => (m.insert order.client_id ((StdMap.empty : StdSet ByteString).insert order.trader_tag ()).1).1
  | some s => m.assign order.client_id (s.insert order.trader_tag ()).1

/-- The block of `Add` that records the client under the trader. -/
def addTraderToClients (m : StdMap ByteString (StdSet Nat)) (order : OrderEntry) :
    StdMap ByteString (StdSet Nat) :=
  match m.find order.trader_tag with
  | none => (m.insert order.trader_tag ((StdMap.empty : StdSet Nat).insert order.client_id ()).1).1
  | some c => m.assign order.trader_tag (c.insert order.client_id ()).1

/-- The method `OrderBook::Add`. -/
def Add (b : OrderBook) (order : OrderEntry) : Outcome :=
  let pr := b.pending_orders.insert order.client_id order
  let b1 := { b with pending_orders := pr.1 }
  -- assert(pr.second)
  if pr.2 = false then ⟨b1, some Violation.DuplicatePending⟩ else
  let b2 := { b1 with client_to_traders := addClientToTraders b1.client_to_traders order }
  let b3 := { b2 with trader_to_clients := addTraderToClients b2.trader_to_clients order }
  ⟨b3, none⟩

/-- The GFD block of `Ack`: credit the full quantity to the trader's liquidity. -/
def addLiquidity (m : StdMap trader_tag_type Nat) (order : OrderEntry) :
    StdMap trader_tag_type Nat :=
  match m.find order.trader_tag with
  | some v => m.assign order.trader_tag ((v + order.qty) % 2 ^ 64)
  | none => (m.insert order.trader_tag order.qty).1

/-- The method `OrderBook::Ack`. -/
def Ack (b : OrderBook) (ack : OrderAck) : Outcome :=
  match b.pending_orders.find ack.client_id with
  | none => ⟨b, some Violation.UnknownPendingOrder⟩  -- assert(false); return
  | some order =>
    if ack.order_status = OrderStatus.GOOD then
      let pr := b.resting_orders.insert ack.order_id order
      let b1 := { b with resting_orders := pr.1 }
      -- assert(pr.second)
      if pr.2 = false then ⟨b1, some Violation.DuplicateResting⟩ else
      let b2 := { b1 with pending_orders := b1.pending_orders.erase ack.client_id }
      if order.time_in_force = TimeInForce.TIF_GFD then
        ⟨{ b2 with liquidity_per_trader := addLiquidity b2.liquidity_per_trader order }, none⟩
      else ⟨b2, none⟩
    else if ack.order_status = OrderStatus.REJECT then
      ⟨{ b with pending_orders := b.pending_orders.erase ack.client_id }, none⟩
    else ⟨b, none⟩

/-- The instrument block of `Fill`. -/
def addVolume (m : StdMap ByteString Nat) (instrument : ByteString) (fill_qty : Nat) :
    StdMap ByteString Nat :=
  match m.find instrument with
  | some v => m.assign instrument ((v + fill_qty) % 2 ^ 64)
  | none => (m.insert instrument fill_qty).1

/-- The trader block of `Fill`.  With an entry present the sum is accumulated in the
map's `uint64_t`; without one it is accumulated in `auto vol = fill->fill_qty`, a
`uint32_t`, and then stored. -/
def addActivity (m : StdMap ByteString Nat) (trader : ByteString) (fill_qty : Nat)
    (contra : List CounterParty) : StdMap ByteString Nat :=
  match m.find trader with
  | some v =>
    m.assign trader (contra.foldl (fun acc c => (acc + c.qty) % 2 ^ 64) ((v + fill_qty) % 2 ^ 64))
  | none =>
    (m.insert trader (contra.foldl (fun vol c => (vol + c.qty) % 2 ^ 32) fill_qty)).1

/-- The method `OrderBook::Fill`. -/
def Fill (b : OrderBook) (fill_msg : FillMsg) : Outcome :=
  let fill := fill_msg.fill
  match b.resting_orders.find fill.order_id with
  | none => ⟨b, some Violation.UnknownRestingOrder⟩  -- assert(false)
  | some order0 =>
    -- assert(order->qty >= fill->fill_qty)
    if order0.qty < fill.fill_qty then ⟨b, some Violation.OverFill⟩ else
    -- order->qty -= fill->fill_qty, through the pointer held by the map
    let order := { order0 with qty := order0.qty - fill.fill_qty }
    let b1 := { b with resting_orders := b.resting_orders.assign fill.order_id order }
    let b2 := if order.qty = 0 then
        { b1 with resting_orders := b1.resting_orders.erase fill.order_id } else b1
    let b3 := { b2 with
      vol_per_instrument := addVolume b2.vol_per_instrument order.instrument fill.fill_qty }
    let b4 := { b3 with
      vol_per_trader := addActivity b3.vol_per_trader order.trader_tag fill.fill_qty fill_msg.contra }
    ⟨b4, none⟩

/-- Representation invariant of the book: every member map is a well-formed `std::map`. -/
def WF (b : OrderBook) : Prop :=
  b.pending_orders.WF ∧ b.resting_orders.WF ∧ b.vol_per_instrument.WF ∧
  b.liquidity_per_trader.WF ∧ b.vol_per_trader.WF ∧ b.client_to_traders.WF ∧
  b.trader_to_clients.WF

instance (b : OrderBook) : Decidable b.WF := by
  unfold WF; infer_instance

end OrderBook

/-- One decoded message, as dispatched by the `switch` in `main`. -/
inductive Event where
  | entry (order : OrderEntry)
  | ack (a : OrderAck)
  | fill (f : FillMsg)
deriving DecidableEq, Repr

/-- The book call that `main` makes for a message. -/
def OrderBook.apply (b : OrderBook) : Event → Outcome
  | Event.entry order => b.Add order
  | Event.ack a => b.Ack a
  | Event.fill f => b.Fill f

/-- Apply the events in order; processing ends at the first violation. -/
def OrderBook.run (b : OrderBook) : List Event → Outcome
  | [] => ⟨b, none⟩
  | ev :: rest =>
    match (b.apply ev).violation with
    | some v => ⟨(b.apply ev).book, some v⟩
    | none => (b.apply ev).book.run rest

/-- The book a successful `Fill` leaves, written in terms of the book before. -/
def OrderBook.fillResult (b : OrderBook) (fill_msg : FillMsg) (order0 : OrderEntry) : OrderBook :=
  let order := { order0 with qty := order0.qty - fill_msg.fill.fill_qty }
  { b with
    resting_orders :=
      if order0.qty - fill_msg.fill.fill_qty = 0 then
        (b.resting_orders.assign fill_msg.fill.order_id order).erase fill_msg.fill.order_id
      else b.resting_orders.assign fill_msg.fill.order_id order
    vol_per_instrument := OrderBook.addVolume b.vol_per_instrument order0.instrument fill_msg.fill.fill_qty
    vol_per_trader :=
      OrderBook.addActivity b.vol_per_trader order0.trader_tag fill_msg.fill.fill_qty fill_msg.contra }

/-- Total of the fill quantities of a list of fill messages. -/
def totalFillQty (fs : List FillMsg) : Nat := (fs.map (fun f => f.fill.fill_qty)).sum

/-! ## Scenario data -/

/-- Header used by the scenario messages. -/
def hdr0 (ty dir len : Nat) : Header := ⟨0x5453, ty, 0, 0, dir, len⟩

/-- Instrument `"ABC"` padded to ten bytes. -/
def instrABC : ByteString := [65, 66, 67, 0, 0, 0, 0, 0, 0, 0]

/-- Trader tag `"AAA"`. -/
def tagAAA : ByteString := [65, 65, 65]

/-- Trader tag `"BBB"`. -/
def tagBBB : ByteString := [66, 66, 66]

/-- Entry of the scenario: client 1, instrument ABC, quantity `q`, buy, trader AAA. -/
def entryAAA (q tif : Nat) : OrderEntry :=
  { toHeader := hdr0 1 0 300, price := 10000, qty := q, instrument := instrABC, side := 1,
    client_id := 1, time_in_force := tif, trader_tag := tagAAA, firm_id := 7, firm := [],
    termination_string := [68, 66, 68, 66, 68, 66, 68, 66] }

/-- Ack for client 1 assigning order id 500 with the given status. -/
def ack500 (status : Nat) : OrderAck :=
  { toHeader := hdr0 2 1 22, order_id := 500, client_id := 1, order_status := status,
    reject_code := 0, termination_string := [68, 66, 68, 66, 68, 66, 68, 66] }

/-- Fill of order 500 for `q` with the given counterparty records. -/
def fill500 (q : Nat) (contra : List CounterParty) : FillMsg :=
  { fill := { toHeader := hdr0 3 1 (17 + 8 * contra.length), order_id := 500,
              fill_price := 10000, fill_qty := q, no_of_contras := contra.length },
    contra := contra }

/-- The book with the scenario entry (quantity 100, GFD) pending under client 1. -/
def bookPending : OrderBook := (OrderBook.empty.Add (entryAAA 100 TimeInForce.TIF_GFD)).book

/-- The book with the scenario order resting under order id 500. -/
def bookResting : OrderBook := (bookPending.Ack (ack500 OrderStatus.GOOD)).book

/-- The scenario book with the volume of ABC one below the top of `uint64_t`. -/
def bookVolumeMax : OrderBook :=
  { bookResting with vol_per_instrument := ⟨[(instrABC, 2 ^ 64 - 1)]⟩ }

/-- The scenario book, entry still pending, with the liquidity of AAA one below the top
of `uint64_t`. -/
def bookLiquidityMax : OrderBook :=
  { bookPending with liquidity_per_trader := ⟨[(tagAAA, 2 ^ 64 - 1)]⟩ }

/-- The scenario book after a fill of quantity 0 without counterparties: order 500 still
rests with 100 and AAA has an activity entry of value 0. -/
def bookActivityZero : OrderBook := (bookResting.Fill (fill500 0 [])).book

/-- A fill of order 500 for 1 against one counterparty whose quantity is `2^32 - 1`. -/
def fillBigContra : FillMsg := fill500 1 [⟨9, tagBBB, 4294967295⟩]

/-- The four events of the scenario. -/
def scenarioEvents : List Event :=
  [Event.entry (entryAAA 100 TimeInForce.TIF_GFD), Event.ack (ack500 OrderStatus.GOOD),
    Event.fill (fill500 40 [⟨9, tagBBB, 40⟩]), Event.fill (fill500 60 [])]

/-! ## `class Msg` and `class Producer` -/

/-- Size of the packed struct `Header`. -/
def sizeofHeader : Nat := 22

/-- Size of the packed struct `OrderFill` (the header is its base class). -/
def sizeofOrderFill : Nat := 39

/-- Size of the packed struct `CounterParty`. -/
def sizeofCounterParty : Nat := 8

/-- Value of an unsigned integer field from its bytes, least significant first (the
layout `reinterpret_cast` reads on the little-endian hosts the program targets). -/
def leNat : List Nat → Nat
  | [] => 0
  | b :: t => b + 256 * leNat t

/-- The `n` bytes of `buf` starting at offset `off`, when all of them lie inside `buf`. -/
def bytesAt (buf : List Nat) (off n : Nat) : Option (List Nat) :=
  if off + n ≤ buf.length then some ((buf.drop off).take n) else none

/-- The fields of a `CounterParty` laid over eight bytes. -/
def decodeCounterParty (bs : List Nat) : CounterParty :=
  { firm_id := leNat (bs.take 1), trader_tag := (bs.drop 1).take 3, qty := leNat ((bs.drop 4).take 4) }

/-- The data members of `Msg`.  `counter_parties` is the pointer handed to the
constructor, kept as a byte offset from the start of the buffer it points into
(`none` is `nullptr`); `msg` is the copy of that buffer made by the constructor. -/
structure Msg where
  msg : List Nat
  len : Nat
  msg_type : Nat
  counter_parties : Option Nat
  num_contras : Nat
deriving DecidableEq, Repr

/-- The record that lies at the position of `GetCounterParty() + i` in the bytes of the
message: eight bytes from offset `off + 8 * i`, `none` when they are not all inside the
message.  It locates the pointer in the frame.  It does not say what the program finds
when it reads through the pointer later: the pointer addresses the local vector of
`GetMsg`, which no longer exists by then. -/
def Msg.contraAt (m : Msg) (i : Nat) : Option CounterParty :=
  match m.counter_parties with
  | none => none
  | some off => (bytesAt m.msg (off + sizeofCounterParty * i) sizeofCounterParty).map decodeCounterParty

/-- The fields of a `Header` laid over the first 22 bytes of a buffer. -/
def decodeHeader (bs : List Nat) : Header :=
  { marker := leNat (bs.take 2), msg_type := leNat ((bs.drop 2).take 1),
    sequence_id := leNat ((bs.drop 3).take 8), timestamp := leNat ((bs.drop 11).take 8),
    msg_direction := leNat ((bs.drop 19).take 1), msg_len := leNat ((bs.drop 20).take 2) }

/-- The view `GetAsOrderEntry()`; `none` when the message is shorter than an `OrderEntry`. -/
def Msg.GetAsOrderEntry (m : Msg) : Option OrderEntry :=
  (bytesAt m.msg 0 322).map fun bs =>
    { toHeader := decodeHeader bs, price := leNat ((bs.drop 22).take 8),
      qty := leNat ((bs.drop 30).take 4), instrument := (bs.drop 34).take 10,
      side := leNat ((bs.drop 44).take 1), client_id := leNat ((bs.drop 45).take 8),
      time_in_force := leNat ((bs.drop 53).take 1), trader_tag := (bs.drop 54).take 3,
      firm_id := leNat ((bs.drop 57).take 1), firm := (bs.drop 58).take 256,
      termination_string := (bs.drop 314).take 8 }

/-- The view `GetAsOrderAck()`; `none` when the message is shorter than an `OrderAck`. -/
def Msg.GetAsOrderAck (m : Msg) : Option OrderAck :=
  (bytesAt m.msg 0 44).map fun bs =>
    { toHeader := decodeHeader bs, order_id := leNat ((bs.drop 22).take 4),
      client_id := leNat ((bs.drop 26).take 8), order_status := leNat ((bs.drop 34).take 1),
      reject_code := leNat ((bs.drop 35).take 1), termination_string := (bs.drop 36).take 8 }

/-- The view `GetAsOrderFill()`; `none` when the message is shorter than an `OrderFill`. -/
def Msg.GetAsOrderFill (m : Msg) : Option OrderFill :=
  (bytesAt m.msg 0 sizeofOrderFill).map fun bs =>
    { toHeader := decodeHeader bs, order_id := leNat ((bs.drop 22).take 4),
      fill_price := leNat ((bs.drop 26).take 8), fill_qty := leNat ((bs.drop 34).take 4),
      no_of_contras := leNat ((bs.drop 38).take 1) }

/-- A `std::istream` over a byte sequence: the bytes not yet extracted and the two
state flags the reader tests. -/
structure IStream where
  data : List Nat
  eofbit : Bool
  failbit : Bool
deriving DecidableEq, Repr

/-- A stream just opened on the given bytes. -/
def IStream.open (data : List Nat) : IStream := ⟨data, false, false⟩

/-- The call `input.read(s, n)`: the characters stored and the stream afterwards.  On a
stream that is not good nothing is extracted and `failbit` is set; when fewer than `n`
characters remain they are all extracted and both `eofbit` and `failbit` are set. -/
def IStream.read (s : IStream) (n : Nat) : List Nat × IStream :=
  if s.eofbit || s.failbit then ([], { s with failbit := true })
  else if n ≤ s.data.length then (s.data.take n, { s with data := s.data.drop n })
  else (s.data, { data := [], eofbit := true, failbit := true })

/-- Store `got` at offset `off` of `buf`, as `read` does with its destination. -/
def storeAt (buf : List Nat) (off : Nat) (got : List Nat) : List Nat :=
  buf.take off ++ got ++ buf.drop (off + got.length)

/-- How a call of `Producer::GetMsg` ends. -/
inductive GetMsgResult where
  | returned (m : Msg)
  | EndOfDataException
  | MalformedInputException
  | undefined
deriving DecidableEq, Repr

/-- The `switch (header->msg_type)` of `GetMsg` on the filled buffer.  For message type
3 the source reads `fill->no_of_contras` at offset 38 without looking at the length of
the buffer; when the buffer ends before that offset the byte it finds is not part of the
frame, and `past` stands for it.  The message is built and returned in either case. -/
def Producer.dispatch (past : Nat) (buf : List Nat) : GetMsgResult :=
  let msg_type := (buf.drop 2).headD 0
  if msg_type = MsgType.FILL then
    let no_of_contras :=
      match bytesAt buf 38 1 with
      | some n => leNat n
      | none => past
    -- &pc[0] + sizeof(OrderFill) with pc = &buf[0] + sizeof(Header)
    let contras := if no_of_contras = 0 then none else some (sizeofHeader + sizeofOrderFill)
    GetMsgResult.returned ⟨buf, buf.length, msg_type, contras, no_of_contras⟩
  else if msg_type = MsgType.ACK then
    GetMsgResult.returned ⟨buf, buf.length, msg_type, none, 0⟩
  else if msg_type = MsgType.ENTRY then
    GetMsgResult.returned ⟨buf, buf.length, msg_type, none, 0⟩
  else GetMsgResult.MalformedInputException

/-- The method `Producer::GetMsg`: how the call ends and the stream afterwards.  Every
path through the loop body leaves the function, so the body runs at most once; when the
loop is not entered the function flows off its end, which is `undefined`.  `past` is the
byte behind a buffer too short to hold the count field of a Fill (see
`Producer.dispatch`). -/
def Producer.GetMsg (past : Nat) (input : IStream) : GetMsgResult × IStream :=
  -- vector<char> buf; buf.resize(sizeof(Header))
  let buf0 := List.replicate sizeofHeader 0
  if input.eofbit then (GetMsgResult.undefined, input) else
  let r1 := input.read sizeofHeader
  let buf1 := storeAt buf0 0 r1.1
  if r1.2.eofbit && r1.2.failbit then (GetMsgResult.EndOfDataException, r1.2) else
  -- auto remainder = header->msg_len; buf.resize(buf.size() + remainder)
  let remainder := leNat ((buf1.drop 20).take 2)
  let buf2 := buf1 ++ List.replicate remainder 0
  let r2 := r1.2.read remainder
  let buf := storeAt buf2 sizeofHeader r2.1
  if r2.2.eofbit && r2.2.failbit then (GetMsgResult.EndOfDataException, r2.2) else
  (Producer.dispatch past buf, r2.2)

/-- Declared payload length of the frame at the head of a byte sequence. -/
def frameMsgLen (data : List Nat) : Nat := leNat ((data.drop 20).take 2)

/-- Message-type byte of the frame at the head of a byte sequence (offset 2). -/
def frameMsgType (data : List Nat) : Nat := (data.drop 2).headD 0

/-- A 22-byte header with the given type, direction and payload length. -/
def headerBytes (ty dir len : Nat) : List Nat :=
  [0x53, 0x54, ty] ++ List.replicate 16 0 ++ [dir, len % 256, len / 256]

/-- The eight bytes of a counterparty record. -/
def contraBytes (firm : Nat) (tag : List Nat) (qty : Nat) : List Nat :=
  firm :: tag ++ [qty % 256, qty / 256 % 256, qty / 65536 % 256, qty / 16777216 % 256]

/-- A Fill frame for order 500, quantity 60, with three counterparty records
(traders BBB, CCC, DDD for 10, 20, 30) followed by the terminator `DBDBDBDB`. -/
def fillFrame3 : List Nat :=
  headerBytes 3 1 49 ++ [244, 1, 0, 0] ++ [16, 39, 0, 0, 0, 0, 0, 0] ++ [60, 0, 0, 0] ++ [3] ++
    contraBytes 1 [66, 66, 66] 10 ++ contraBytes 2 [67, 67, 67] 20 ++ contraBytes 3 [68, 68, 68] 30 ++
    [68, 66, 68, 66, 68, 66, 68, 66]

/-! ## Queries and whole runs -/

/-- The loop shared by `GetMostActiveTrader` and `GetMostLiquidTrader`: walk the entries
in iteration order with the locals `trader` and `vol`, replacing them when
`itr->second > vol`. -/
def maxScan : List (ByteString × Nat) → ByteString → Nat → ByteString × Nat
  | [], trader, vol => (trader, vol)
  | (k, v) :: t, trader, vol => if v > vol then maxScan t k v else maxScan t trader vol

/-- Result of a query method: the book afterwards and the returned tag; `none` when
`assert(!trader.empty())` fails. -/
structure QueryOutcome where
  book : OrderBook
  trader : Option ByteString
deriving DecidableEq, Repr

/-- The method `OrderBook::GetMostActiveTrader`, with `string trader; uint64_t vol(0)`. -/
def OrderBook.GetMostActiveTrader (b : OrderBook) : QueryOutcome :=
  let trader := (maxScan b.vol_per_trader.entries [] 0).1
  -- assert(!trader.empty())
  if trader = [] then ⟨b, none⟩ else ⟨b, some trader⟩

/-- The method `OrderBook::GetMostLiquidTrader`, with `string trader; uint64_t vol(0)`. -/
def OrderBook.GetMostLiquidTrader (b : OrderBook) : QueryOutcome :=
  let trader := (maxScan b.liquidity_per_trader.entries [] 0).1
  -- assert(!trader.empty())
  if trader = [] then ⟨b, none⟩ else ⟨b, some trader⟩

/-- The keys of an accumulator map are trader tags: strings built from `char[3]`. -/
def TagKeys (m : StdMap ByteString Nat) : Prop := ∀ p ∈ m.entries, p.1.length = 3

instance (m : StdMap ByteString Nat) : Decidable (TagKeys m) := by
  unfold TagKeys; infer_instance

/-- One case of the `switch` in `main`: the direction assertion, where the source has
one, and then the book call.  `none` is a failed assertion of `main`.  For `ACK` the
assertion is commented out in the source. -/
def mainCase (b : OrderBook) : Event → Option Outcome
  | Event.ack a => some (b.Ack a)
  | Event.entry order =>
    if order.msg_direction = MsgDirection.TO_EXCH then some (b.Add order) else none
  | Event.fill f =>
    if f.fill.msg_direction = MsgDirection.FROM_EXCH then some (b.Fill f) else none

/-- The same ack with another value in the header's direction field. -/
def OrderAck.withDirection (a : OrderAck) (d : Nat) : OrderAck :=
  { a with toHeader := { a.toHeader with msg_direction := d } }

/-- Sum of all per-instrument cumulative volumes. -/
def OrderBook.totalVolume (b : OrderBook) : Nat :=
  (b.vol_per_instrument.entries.map (fun p => p.2)).sum

/-- Sum of the remaining quantities of all resting orders. -/
def OrderBook.totalResting (b : OrderBook) : Nat :=
  (b.resting_orders.entries.map (fun p => p.2.qty)).sum

/-- Quantity an event brings into the resting map: the quantity of the pending entry
when the event is an ack with status good, and 0 otherwise. -/
def ackedQtyOf (b : OrderBook) : Event → Nat
  | Event.ack a =>
    if a.order_status = OrderStatus.GOOD then
      ((b.pending_orders.find a.client_id).map OrderEntry.qty).getD 0
    else 0
  | _ => 0

/-- Sum of the quantities of the entries acknowledged good while the events are applied
from `b` (up to the first violation, where processing ends). -/
def ackedQty (b : OrderBook) : List Event → Nat
  | [] => 0
  | ev :: rest =>
    match (b.apply ev).violation with
    | some _ => 0
    | none => ackedQtyOf b ev + ackedQty (b.apply ev).book rest

/-- Every pending and every resting order has a positive quantity. -/
def PosQty (b : OrderBook) : Prop :=
  (∀ p ∈ b.pending_orders.entries, 0 < p.2.qty) ∧ (∀ p ∈ b.resting_orders.entries, 0 < p.2.qty)

/-- A Fill frame that consists of the header alone (declared payload length 0). -/
def fillHeaderOnly : List Nat := headerBytes 3 1 0

/-- An Ack frame: order 500 for client 1, status good. -/
def ackFrame : List Nat :=
  headerBytes 2 1 22 ++ [244, 1, 0, 0] ++ [1, 0, 0, 0, 0, 0, 0, 0] ++ [1, 0] ++
    [68, 66, 68, 66, 68, 66, 68, 66]

/-- A complete frame of message type 9 with a payload of two bytes. -/
def unknownFrame : List Nat := headerBytes 9 0 2 ++ [1, 2]

/-- Trader tag `"CCC"`. -/
def tagCCC : ByteString := [67, 67, 67]

/-- The scenario entry with another client id and trader tag. -/
def entryOf (client : Nat) (tag : ByteString) (q tif : Nat) : OrderEntry :=
  { entryAAA q tif with client_id := client, trader_tag := tag }

/-- An ack for the given client and order id. -/
def ackOf (client order status : Nat) : OrderAck :=
  { ack500 status with order_id := order, client_id := client }

/-- A fill of the given order without counterparties. -/
def fillOf (order q : Nat) : FillMsg :=
  { fill := { (fill500 q []).fill with order_id := order }, contra := [] }

/-- Events after which AAA and BBB both have activity 10 and CCC has activity 5. -/
def tieEvents : List Event :=
  [Event.entry (entryOf 1 tagBBB 10 1), Event.ack (ackOf 1 501 1), Event.fill (fillOf 501 10),
    Event.entry (entryOf 2 tagCCC 5 1), Event.ack (ackOf 2 502 1), Event.fill (fillOf 502 5),
    Event.entry (entryOf 3 tagAAA 10 2), Event.ack (ackOf 3 503 1), Event.fill (fillOf 503 10)]

/-- Events after which AAA and BBB both have liquidity 10 and CCC has liquidity 5: three
GFD entries acknowledged good, AAA last. -/
def liquidTieEvents : List Event :=
  [Event.entry (entryOf 1 tagBBB 10 2), Event.ack (ackOf 1 501 1),
    Event.entry (entryOf 2 tagCCC 5 2), Event.ack (ackOf 2 502 1),
    Event.entry (entryOf 3 tagAAA 10 2), Event.ack (ackOf 3 503 1)]

/-- Events after which AAA has an activity entry of value 0: a fill of quantity 0. -/
def zeroFillEvents : List Event :=
  [Event.entry (entryAAA 100 TimeInForce.TIF_GFD), Event.ack (ack500 OrderStatus.GOOD),
    Event.fill (fill500 0 [])]

/-- Events after which order 500 rests with quantity 0 and AAA has liquidity 0: a GFD
entry of quantity 0 acknowledged good. -/
def zeroEntryEvents : List Event :=
  [Event.entry (entryAAA 0 TimeInForce.TIF_GFD), Event.ack (ack500 OrderStatus.GOOD)]

/-- Events in which order id 500 is filled completely and then assigned again by a
later good ack. -/
def reuseEvents : List Event :=
  [Event.entry (entryAAA 10 TimeInForce.TIF_GFD), Event.ack (ack500 OrderStatus.GOOD),
    Event.fill (fill500 10 []),
    Event.entry (entryAAA 5 TimeInForce.TIF_GFD), Event.ack (ack500 OrderStatus.GOOD)]

/-! ## Facts about the containers -/

namespace StdMap

variable {K V : Type}

theorem lookupKV_insertKV_self [LinearOrder K] (k : K) (v : V) (l : List (K × V))
    (h : lookupKV k l = none) : lookupKV k (insertKV k v l) = some v := by
  induction l with
  | nil => simp [insertKV, lookupKV]
  | cons p t ih =>
    obtain ⟨k', v'⟩ := p
    simp only [lookupKV] at h
    by_cases hk : k' = k
    · simp [hk] at h
    · simp only [hk, if_false] at h
      by_cases hlt : k' < k
      · simp [insertKV, hlt, lookupKV, hk, ih h]
      · simp [insertKV, hlt, lookupKV]

theorem lookupKV_insertKV_of_ne [LinearOrder K] (k k' : K) (v : V) (l : List (K × V))
    (hne : k' ≠ k) : lookupKV k' (insertKV k v l) = lookupKV k' l := by
  induction l with
  | nil => simp [insertKV, lookupKV, Ne.symm hne]
  | cons p t ih =>
    obtain ⟨k1, v1⟩ := p
    by_cases hlt : k1 < k
    · simp [insertKV, hlt, lookupKV, ih]
    · simp [insertKV, hlt, lookupKV, Ne.symm hne]

theorem lookupKV_eraseKV_of_ne [LinearOrder K] (k k' : K) (l : List (K × V)) (hne : k' ≠ k) :
    lookupKV k' (eraseKV k l) = lookupKV k' l := by
  induction l with
  | nil => rfl
  | cons p t ih =>
    obtain ⟨k1, v1⟩ := p
    by_cases h1 : k1 = k
    · subst h1
      simp [eraseKV, lookupKV, Ne.symm hne]
    · simp [eraseKV, h1, lookupKV, ih]

theorem lookupKV_eq_none_of_forall_ne [LinearOrder K] (k : K) (l : List (K × V))
    (h : ∀ p ∈ l, p.1 ≠ k) : lookupKV k l = none := by
  induction l with
  | nil => rfl
  | cons p t ih =>
    obtain ⟨k1, v1⟩ := p
    have h1 : k1 ≠ k := h (k1, v1) (List.mem_cons_self _ _)
    simp only [lookupKV, h1, if_false]
    exact ih (fun q hq => h q (List.mem_cons_of_mem _ hq))

theorem forall_ne_of_lookupKV_eq_none [LinearOrder K] (k : K) (l : List (K × V))
    (h : lookupKV k l = none) : ∀ p ∈ l, p.1 ≠ k := by
  induction l with
  | nil => intro p hp; cases hp
  | cons q t ih =>
    obtain ⟨k1, v1⟩ := q
    simp only [lookupKV] at h
    by_cases h1 : k1 = k
    · simp [h1] at h
    · simp only [h1, if_false] at h
      intro p hp
      rcases List.mem_cons.1 hp with hp | hp
      · subst hp; exact h1
      · exact ih h p hp

theorem lookupKV_eraseKV_self [LinearOrder K] (k : K) (l : List (K × V))
    (hwf : l.Pairwise (fun a b => a.1 < b.1)) : lookupKV k (eraseKV k l) = none := by
  induction l with
  | nil => rfl
  | cons p t ih =>
    obtain ⟨k1, v1⟩ := p
    rw [List.pairwise_cons] at hwf
    by_cases h1 : k1 = k
    · subst h1
      simp only [eraseKV, if_true]
      exact lookupKV_eq_none_of_forall_ne _ _ (fun q hq => ne_of_gt (hwf.1 q hq))
    · simp [eraseKV, h1, lookupKV, ih hwf.2]

theorem lookupKV_assignKV_self [LinearOrder K] (k : K) (v : V) (l : List (K × V)) :
    lookupKV k (assignKV k v l) = (lookupKV k l).map (fun _ => v) := by
  induction l with
  | nil => rfl
  | cons p t ih =>
    obtain ⟨k1, v1⟩ := p
    by_cases h1 : k1 = k
    · simp [assignKV, h1, lookupKV]
    · simp [assignKV, h1, lookupKV, ih]

theorem lookupKV_assignKV_of_ne [LinearOrder K] (k k' : K) (v : V) (l : List (K × V))
    (hne : k' ≠ k) : lookupKV k' (assignKV k v l) = lookupKV k' l := by
  induction l with
  | nil => rfl
  | cons p t ih =>
    obtain ⟨k1, v1⟩ := p
    by_cases h1 : k1 = k
    · subst h1
      simp [assignKV, lookupKV, Ne.symm hne]
    · simp [assignKV, h1, lookupKV, ih]

theorem map_fst_assignKV [LinearOrder K] (k : K) (v : V) (l : List (K × V)) :
    (assignKV k v l).map Prod.fst = l.map Prod.fst := by
  induction l with
  | nil => rfl
  | cons p t ih =>
    obtain ⟨k1, v1⟩ := p
    by_cases h1 : k1 = k
    · simp [assignKV, h1]
    · simp [assignKV, h1, ih]

theorem eraseKV_sublist [LinearOrder K] (k : K) (l : List (K × V)) :
    (eraseKV k l).Sublist l := by
  induction l with
  | nil => exact List.Sublist.slnil
  | cons p t ih =>
    obtain ⟨k1, v1⟩ := p
    by_cases h1 : k1 = k
    · simp [eraseKV, h1]
    · simp only [eraseKV, h1, if_false]
      exact List.Sublist.cons₂ _ ih

theorem mem_insertKV [LinearOrder K] (k : K) (v : V) (l : List (K × V)) (p : K × V)
    (hp : p ∈ insertKV k v l) : p = (k, v) ∨ p ∈ l := by
  induction l with
  | nil => simpa [insertKV] using hp
  | cons q t ih =>
    obtain ⟨k1, v1⟩ := q
    by_cases hlt : k1 < k
    · simp only [insertKV, hlt, if_true, List.mem_cons] at hp
      rcases hp with hp | hp
      · exact Or.inr (hp ▸ List.mem_cons_self _ _)
      · rcases ih hp with h | h
        · exact Or.inl h
        · exact Or.inr (List.mem_cons_of_mem _ h)
    · simp only [insertKV, hlt, if_false, List.mem_cons] at hp
      rcases hp with hp | hp | hp
      · exact Or.inl hp
      · exact Or.inr (hp ▸ List.mem_cons_self _ _)
      · exact Or.inr (List.mem_cons_of_mem _ hp)

theorem pairwise_insertKV [LinearOrder K] (k : K) (v : V) (l : List (K × V))
    (hwf : l.Pairwise (fun a b => a.1 < b.1)) (hk : ∀ p ∈ l, p.1 ≠ k) :
    (insertKV k v l).Pairwise (fun a b => a.1 < b.1) := by
  induction l with
  | nil => simp [insertKV]
  | cons q t ih =>
    obtain ⟨k1, v1⟩ := q
    rw [List.pairwise_cons] at hwf
    have hne : k1 ≠ k := hk (k1, v1) (List.mem_cons_self _ _)
    by_cases hlt : k1 < k
    · simp only [insertKV, hlt, if_true]
      rw [List.pairwise_cons]
      refine ⟨?_, ih hwf.2 (fun p hp => hk p (List.mem_cons_of_mem _ hp))⟩
      intro p hp
      rcases mem_insertKV k v t p hp with h | h
      · subst h; exact hlt
      · exact hwf.1 p h
    · simp only [insertKV, hlt, if_false]
      have hgt : k < k1 := lt_of_le_of_ne (not_lt.1 hlt) (Ne.symm hne)
      rw [List.pairwise_cons]
      refine ⟨?_, List.pairwise_cons.2 hwf⟩
      intro p hp
      rcases List.mem_cons.1 hp with h | h
      · subst h; exact hgt
      · exact lt_trans hgt (hwf.1 p h)

theorem pairwise_assignKV [LinearOrder K] (k : K) (v : V) (l : List (K × V))
    (hwf : l.Pairwise (fun a b => a.1 < b.1)) :
    (assignKV k v l).Pairwise (fun a b => a.1 < b.1) := by
  have h1 : (l.map Prod.fst).Pairwise (· < ·) := List.pairwise_map.2 hwf
  rw [← map_fst_assignKV k v l] at h1
  exact List.pairwise_map.1 h1

/-- Looking up the inserted key gives the entry that was there, or the new value. -/
theorem find_insert_self [LinearOrder K] (m : StdMap K V) (k : K) (v : V) :
    (m.insert k v).1.find k = some ((m.find k).getD v) := by
  unfold insert
  cases h : m.find k with
  | none => simpa [find] using lookupKV_insertKV_self k v m.entries h
  | some x => simpa using h

theorem find_insert_of_ne [LinearOrder K] (m : StdMap K V) (k k' : K) (v : V) (hne : k' ≠ k) :
    (m.insert k v).1.find k' = m.find k' := by
  unfold insert
  cases h : m.find k with
  | none => simpa [find] using lookupKV_insertKV_of_ne k k' v m.entries hne
  | some x => rfl

/-- The flag returned by `insert` tells whether the key was absent. -/
theorem insert_snd [LinearOrder K] (m : StdMap K V) (k : K) (v : V) :
    (m.insert k v).2 = (m.find k).isNone := by
  unfold insert
  cases h : m.find k <;> rfl

/-- A refused insertion leaves the container as it was. -/
theorem insert_fst_of_snd_false [LinearOrder K] (m : StdMap K V) (k : K) (v : V)
    (h : (m.insert k v).2 = false) : (m.insert k v).1 = m := by
  unfold insert at h ⊢
  cases hf : m.find k with
  | none => simp [hf] at h
  | some x => rfl

theorem find_erase_self [LinearOrder K] (m : StdMap K V) (k : K) (hwf : m.WF) :
    (m.erase k).find k = none :=
  lookupKV_eraseKV_self k m.entries hwf

theorem find_erase_of_ne [LinearOrder K] (m : StdMap K V) (k k' : K) (hne : k' ≠ k) :
    (m.erase k).find k' = m.find k' :=
  lookupKV_eraseKV_of_ne k k' m.entries hne

theorem find_assign_self [LinearOrder K] (m : StdMap K V) (k : K) (v : V) :
    (m.assign k v).find k = (m.find k).map (fun _ => v) :=
  lookupKV_assignKV_self k v m.entries

theorem find_assign_of_ne [LinearOrder K] (m : StdMap K V) (k k' : K) (v : V) (hne : k' ≠ k) :
    (m.assign k v).find k' = m.find k' :=
  lookupKV_assignKV_of_ne k k' v m.entries hne

theorem WF_empty [LinearOrder K] : (empty : StdMap K V).WF := List.Pairwise.nil

theorem WF_insert [LinearOrder K] (m : StdMap K V) (k : K) (v : V) (hwf : m.WF) :
    (m.insert k v).1.WF := by
  unfold insert
  cases h : m.find k with
  | none => exact pairwise_insertKV k v m.entries hwf (forall_ne_of_lookupKV_eq_none k _ h)
  | some x => exact hwf

theorem WF_erase [LinearOrder K] (m : StdMap K V) (k : K) (hwf : m.WF) : (m.erase k).WF :=
  List.Pairwise.sublist (eraseKV_sublist k m.entries) hwf

theorem WF_assign [LinearOrder K] (m : StdMap K V) (k : K) (v : V) (hwf : m.WF) :
    (m.assign k v).WF :=
  pairwise_assignKV k v m.entries hwf

end StdMap

/-! ## Facts about the three book operations -/

namespace OrderBook

theorem Fill_of_find_none (b : OrderBook) (fill_msg : FillMsg)
    (h : b.resting_orders.find fill_msg.fill.order_id = none) :
    b.Fill fill_msg = ⟨b, some Violation.UnknownRestingOrder⟩ := by
  simp [Fill, h]

theorem Fill_of_lt (b : OrderBook) (fill_msg : FillMsg) (order0 : OrderEntry)
    (h : b.resting_orders.find fill_msg.fill.order_id = some order0)
    (hlt : order0.qty < fill_msg.fill.fill_qty) :
    b.Fill fill_msg = ⟨b, some Violation.OverFill⟩ := by
  simp [Fill, h, hlt]

theorem Fill_of_le (b : OrderBook) (fill_msg : FillMsg) (order0 : OrderEntry)
    (h : b.resting_orders.find fill_msg.fill.order_id = some order0)
    (hle : fill_msg.fill.fill_qty ≤ order0.qty) :
    b.Fill fill_msg = ⟨fillResult b fill_msg order0, none⟩ := by
  have hnlt : ¬ order0.qty < fill_msg.fill.fill_qty := not_lt.2 hle
  simp only [Fill, h, hnlt, if_false, fillResult]
  split <;> rfl

theorem find_addVolume_self (m : StdMap ByteString Nat) (i : ByteString) (f : Nat) :
    (addVolume m i f).find i =
      some (match m.find i with
        | some v => (v + f) % 2 ^ 64
        | none => f) := by
  unfold addVolume
  cases h : m.find i with
  | none => simp [StdMap.find_insert_self, h]
  | some v => simp [StdMap.find_assign_self, h]

theorem find_addVolume_of_ne (m : StdMap ByteString Nat) (i j : ByteString) (f : Nat)
    (hne : j ≠ i) : (addVolume m i f).find j = m.find j := by
  unfold addVolume
  cases h : m.find i with
  | none => simp [StdMap.find_insert_of_ne _ _ _ _ hne]
  | some v => simp [StdMap.find_assign_of_ne _ _ _ _ hne]

theorem find_addLiquidity_self (m : StdMap trader_tag_type Nat) (order : OrderEntry) :
    (addLiquidity m order).find order.trader_tag =
      some (match m.find order.trader_tag with
        | some v => (v + order.qty) % 2 ^ 64
        | none => order.qty) := by
  unfold addLiquidity
  cases h : m.find order.trader_tag with
  | none => simp [StdMap.find_insert_self, h]
  | some v => simp [StdMap.find_assign_self, h]

theorem find_addLiquidity_of_ne (m : StdMap trader_tag_type Nat) (order : OrderEntry)
    (t : trader_tag_type) (hne : t ≠ order.trader_tag) :
    (addLiquidity m order).find t = m.find t := by
  unfold addLiquidity
  cases h : m.find order.trader_tag with
  | none => simp [StdMap.find_insert_of_ne _ _ _ _ hne]
  | some v => simp [StdMap.find_assign_of_ne _ _ _ _ hne]

theorem find_addActivity_self (m : StdMap ByteString Nat) (t : ByteString) (f : Nat)
    (contra : List CounterParty) :
    (addActivity m t f contra).find t =
      some (match m.find t with
        | some v => contra.foldl (fun acc c => (acc + c.qty) % 2 ^ 64) ((v + f) % 2 ^ 64)
        | none => contra.foldl (fun vol c => (vol + c.qty) % 2 ^ 32) f) := by
  unfold addActivity
  cases h : m.find t with
  | none => simp [StdMap.find_insert_self, h]
  | some v => simp [StdMap.find_assign_self, h]

theorem find_addActivity_of_ne (m : StdMap ByteString Nat) (t u : ByteString) (f : Nat)
    (contra : List CounterParty) (hne : u ≠ t) :
    (addActivity m t f contra).find u = m.find u := by
  unfold addActivity
  cases h : m.find t with
  | none => simp [StdMap.find_insert_of_ne _ _ _ _ hne]
  | some v => simp [StdMap.find_assign_of_ne _ _ _ _ hne]

/-- Accumulating modulo `2 ^ w` step by step gives the exact sum modulo `2 ^ w`. -/
theorem foldl_add_mod (w : Nat) (contra : List CounterParty) (a : Nat) :
    contra.foldl (fun acc c => (acc + c.qty) % 2 ^ w) (a % 2 ^ w) =
      (a + (contra.map CounterParty.qty).sum) % 2 ^ w := by
  induction contra generalizing a with
  | nil => simp
  | cons c t ih =>
    simp only [List.foldl_cons, List.map_cons, List.sum_cons]
    rw [Nat.mod_add_mod, ih (a + c.qty), Nat.add_assoc]

theorem WF_addVolume (m : StdMap ByteString Nat) (i : ByteString) (f : Nat) (h : m.WF) :
    (addVolume m i f).WF := by
  unfold addVolume
  split
  · exact StdMap.WF_assign _ _ _ h
  · exact StdMap.WF_insert _ _ _ h

theorem WF_addLiquidity (m : StdMap trader_tag_type Nat) (order : OrderEntry) (h : m.WF) :
    (addLiquidity m order).WF := by
  unfold addLiquidity
  split
  · exact StdMap.WF_assign _ _ _ h
  · exact StdMap.WF_insert _ _ _ h

theorem WF_addActivity (m : StdMap ByteString Nat) (t : ByteString) (f : Nat)
    (contra : List CounterParty) (h : m.WF) : (addActivity m t f contra).WF := by
  unfold addActivity
  split
  · exact StdMap.WF_assign _ _ _ h
  · exact StdMap.WF_insert _ _ _ h

theorem WF_addClientToTraders (m : StdMap Nat (StdSet ByteString)) (order : OrderEntry)
    (h : m.WF) : (addClientToTraders m order).WF := by
  unfold addClientToTraders
  split
  · exact StdMap.WF_insert _ _ _ h
  · exact StdMap.WF_assign _ _ _ h

theorem WF_addTraderToClients (m : StdMap ByteString (StdSet Nat)) (order : OrderEntry)
    (h : m.WF) : (addTraderToClients m order).WF := by
  unfold addTraderToClients
  split
  · exact StdMap.WF_insert _ _ _ h
  · exact StdMap.WF_assign _ _ _ h

theorem WF_empty_book : OrderBook.empty.WF := by decide

/-- Every operation keeps each member map a well-formed `std::map`. -/
theorem WF_Add (b : OrderBook) (order : OrderEntry) (h : b.WF) : (b.Add order).book.WF := by
  obtain ⟨h1, h2, h3, h4, h5, h6, h7⟩ := h
  unfold Add
  simp only
  split
  · exact ⟨StdMap.WF_insert _ _ _ h1, h2, h3, h4, h5, h6, h7⟩
  · exact ⟨StdMap.WF_insert _ _ _ h1, h2, h3, h4, h5, WF_addClientToTraders _ _ h6,
      WF_addTraderToClients _ _ h7⟩

theorem WF_Ack (b : OrderBook) (ack : OrderAck) (h : b.WF) : (b.Ack ack).book.WF := by
  obtain ⟨h1, h2, h3, h4, h5, h6, h7⟩ := h
  unfold Ack
  split
  · exact ⟨h1, h2, h3, h4, h5, h6, h7⟩
  · simp only
    split
    · split
      · exact ⟨h1, StdMap.WF_insert _ _ _ h2, h3, h4, h5, h6, h7⟩
      · split
        · exact ⟨StdMap.WF_erase _ _ h1, StdMap.WF_insert _ _ _ h2, h3, WF_addLiquidity _ _ h4,
            h5, h6, h7⟩
        · exact ⟨StdMap.WF_erase _ _ h1, StdMap.WF_insert _ _ _ h2, h3, h4, h5, h6, h7⟩
    · split
      · exact ⟨StdMap.WF_erase _ _ h1, h2, h3, h4, h5, h6, h7⟩
      · exact ⟨h1, h2, h3, h4, h5, h6, h7⟩

theorem WF_fillResult (b : OrderBook) (fill_msg : FillMsg) (order0 : OrderEntry) (h : b.WF) :
    (fillResult b fill_msg order0).WF := by
  obtain ⟨h1, h2, h3, h4, h5, h6, h7⟩ := h
  refine ⟨h1, ?_, WF_addVolume _ _ _ h3, h4, WF_addActivity _ _ _ _ h5, h6, h7⟩
  simp only [fillResult]
  split
  · exact StdMap.WF_erase _ _ (StdMap.WF_assign _ _ _ h2)
  · exact StdMap.WF_assign _ _ _ h2

theorem WF_Fill (b : OrderBook) (fill_msg : FillMsg) (h : b.WF) : (b.Fill fill_msg).book.WF := by
  cases hf : b.resting_orders.find fill_msg.fill.order_id with
  | none => rw [Fill_of_find_none b fill_msg hf]; exact h
  | some order0 =>
    by_cases hlt : order0.qty < fill_msg.fill.fill_qty
    · rw [Fill_of_lt b fill_msg order0 hf hlt]; exact h
    · rw [Fill_of_le b fill_msg order0 hf (not_lt.1 hlt)]
      exact WF_fillResult b fill_msg order0 h

theorem Add_of_find_some (b : OrderBook) (order prev : OrderEntry)
    (h : b.pending_orders.find order.client_id = some prev) :
    b.Add order = ⟨b, some Violation.DuplicatePending⟩ := by
  simp [Add, StdMap.insert, h]

theorem Add_of_find_none (b : OrderBook) (order : OrderEntry)
    (h : b.pending_orders.find order.client_id = none) :
    b.Add order =
      ⟨{ b with
          pending_orders := (b.pending_orders.insert order.client_id order).1
          client_to_traders := addClientToTraders b.client_to_traders order
          trader_to_clients := addTraderToClients b.trader_to_clients order }, none⟩ := by
  simp [Add, StdMap.insert, h]

theorem Ack_of_find_none (b : OrderBook) (ack : OrderAck)
    (h : b.pending_orders.find ack.client_id = none) :
    b.Ack ack = ⟨b, some Violation.UnknownPendingOrder⟩ := by
  simp [Ack, h]

theorem Ack_good_of_resting (b : OrderBook) (ack : OrderAck) (order other : OrderEntry)
    (h : b.pending_orders.find ack.client_id = some order)
    (hs : ack.order_status = OrderStatus.GOOD)
    (hr : b.resting_orders.find ack.order_id = some other) :
    b.Ack ack = ⟨b, some Violation.DuplicateResting⟩ := by
  simp [Ack, h, hs, StdMap.insert, hr]

theorem Ack_good_of_not_resting (b : OrderBook) (ack : OrderAck) (order : OrderEntry)
    (h : b.pending_orders.find ack.client_id = some order)
    (hs : ack.order_status = OrderStatus.GOOD)
    (hr : b.resting_orders.find ack.order_id = none) :
    b.Ack ack =
      ⟨{ b with
          resting_orders := (b.resting_orders.insert ack.order_id order).1
          pending_orders := b.pending_orders.erase ack.client_id
          liquidity_per_trader :=
            if order.time_in_force = TimeInForce.TIF_GFD then
              addLiquidity b.liquidity_per_trader order
            else b.liquidity_per_trader }, none⟩ := by
  by_cases hg : order.time_in_force = TimeInForce.TIF_GFD
  · simp [Ack, h, hs, StdMap.insert, hr, hg]
  · simp [Ack, h, hs, StdMap.insert, hr, hg]

theorem Ack_reject (b : OrderBook) (ack : OrderAck) (order : OrderEntry)
    (h : b.pending_orders.find ack.client_id = some order)
    (hs : ack.order_status = OrderStatus.REJECT) :
    b.Ack ack = ⟨{ b with pending_orders := b.pending_orders.erase ack.client_id }, none⟩ := by
  simp [Ack, h, hs, OrderStatus.REJECT, OrderStatus.GOOD]

theorem Ack_other_status (b : OrderBook) (ack : OrderAck) (order : OrderEntry)
    (h : b.pending_orders.find ack.client_id = some order)
    (hg : ack.order_status ≠ OrderStatus.GOOD) (hj : ack.order_status ≠ OrderStatus.REJECT) :
    b.Ack ack = ⟨b, none⟩ := by
  simp [Ack, h, hg, hj]

end OrderBook

/-! ## Sequences of fills -/

namespace OrderBook

theorem run_nil (b : OrderBook) : b.run [] = ⟨b, none⟩ := rfl

theorem run_cons_of_ok (b b' : OrderBook) (ev : Event) (rest : List Event)
    (h : b.apply ev = ⟨b', none⟩) : b.run (ev :: rest) = b'.run rest := by
  simp [run, h]

/-- What a successful `Fill` does to the activity accumulators. -/
theorem Fill_activity_effect (b : OrderBook) (fill_msg : FillMsg) (order0 : OrderEntry)
    (h : b.resting_orders.find fill_msg.fill.order_id = some order0)
    (hle : fill_msg.fill.fill_qty ≤ order0.qty) (h32 : order0.qty < 2 ^ 32) :
    (b.Fill fill_msg).book.vol_per_trader.find order0.trader_tag =
      some (match b.vol_per_trader.find order0.trader_tag with
        | some v =>
          (v + fill_msg.fill.fill_qty + (fill_msg.contra.map CounterParty.qty).sum) % 2 ^ 64
        | none => (fill_msg.fill.fill_qty + (fill_msg.contra.map CounterParty.qty).sum) % 2 ^ 32) ∧
    ∀ t, t ≠ order0.trader_tag →
      (b.Fill fill_msg).book.vol_per_trader.find t = b.vol_per_trader.find t := by
  rw [Fill_of_le b fill_msg order0 h hle]
  refine ⟨?_, fun t ht => find_addActivity_of_ne _ _ _ _ _ ht⟩
  simp only [fillResult, find_addActivity_self]
  cases hv : b.vol_per_trader.find order0.trader_tag with
  | none =>
    have hf : fill_msg.fill.fill_qty % 2 ^ 32 = fill_msg.fill.fill_qty :=
      Nat.mod_eq_of_lt (lt_of_le_of_lt hle h32)
    simp only
    rw [← foldl_add_mod 32, hf]
  | some v =>
    simp only
    rw [foldl_add_mod 64]

theorem totalFillQty_cons (f : FillMsg) (fs : List FillMsg) :
    totalFillQty (f :: fs) = f.fill.fill_qty + totalFillQty fs := by
  simp [totalFillQty]

theorem totalFillQty_pos (fs : List FillMsg) (hne : fs ≠ [])
    (hpos : ∀ f ∈ fs, 0 < f.fill.fill_qty) : 0 < totalFillQty fs := by
  cases fs with
  | nil => exact absurd rfl hne
  | cons f t =>
    rw [totalFillQty_cons]
    have := hpos f (List.mem_cons_self _ _)
    omega

/-- Fills that add up to the remaining quantity of a resting order: the order stays,
with the right remaining quantity, until the last fill removes it. -/
theorem run_fills_exhaust (o : Nat) (fs : List FillMsg) :
    ∀ (b : OrderBook) (ord : OrderEntry), b.WF → b.resting_orders.find o = some ord →
      (∀ f ∈ fs, f.fill.order_id = o ∧ 0 < f.fill.fill_qty) → fs ≠ [] →
      totalFillQty fs = ord.qty →
      (b.vol_per_instrument.find ord.instrument).getD 0 + ord.qty < 2 ^ 64 →
      (∀ j, j < fs.length →
        (b.run ((fs.take j).map Event.fill)).violation = none ∧
        ((b.run ((fs.take j).map Event.fill)).book.resting_orders.find o).map OrderEntry.qty =
          some (ord.qty - totalFillQty (fs.take j))) ∧
      (b.run (fs.map Event.fill)).violation = none ∧
      (b.run (fs.map Event.fill)).book.resting_orders.find o = none ∧
      (b.run (fs.map Event.fill)).book.vol_per_instrument.find ord.instrument =
        some ((b.vol_per_instrument.find ord.instrument).getD 0 + ord.qty) := by
  induction fs with
  | nil => intro b ord _ _ _ hne; exact absurd rfl hne
  | cons f rest ih =>
    intro b ord hwf hfind hfs _ hsum hvol
    have hfo : f.fill.order_id = o := (hfs f (List.mem_cons_self _ _)).1
    have hfpos : 0 < f.fill.fill_qty := (hfs f (List.mem_cons_self _ _)).2
    rw [totalFillQty_cons] at hsum
    have hfind' : b.resting_orders.find f.fill.order_id = some ord := by rw [hfo]; exact hfind
    have hle : f.fill.fill_qty ≤ ord.qty := by omega
    have hstep : b.apply (Event.fill f) = ⟨fillResult b f ord, none⟩ :=
      Fill_of_le b f ord hfind' hle
    have hzero : ∀ j, j = 0 →
        (b.run (((f :: rest).take j).map Event.fill)).violation = none ∧
        ((b.run (((f :: rest).take j).map Event.fill)).book.resting_orders.find o).map
            OrderEntry.qty = some (ord.qty - totalFillQty ((f :: rest).take j)) := by
      intro j hj
      subst hj
      simp [run_nil, hfind, totalFillQty]
    have hvolnew : (fillResult b f ord).vol_per_instrument.find ord.instrument =
        some ((b.vol_per_instrument.find ord.instrument).getD 0 + f.fill.fill_qty) := by
      simp only [fillResult, find_addVolume_self]
      cases hv : b.vol_per_instrument.find ord.instrument with
      | none => simp
      | some v =>
        rw [hv] at hvol
        simp only [Option.getD_some] at hvol ⊢
        rw [Nat.mod_eq_of_lt (by omega)]
    by_cases hrest : rest = []
    · subst hrest
      have hq : ord.qty - f.fill.fill_qty = 0 := by simp [totalFillQty] at hsum; omega
      have hfq : f.fill.fill_qty = ord.qty := by simp [totalFillQty] at hsum; omega
      refine ⟨?_, ?_⟩
      · intro j hj
        exact hzero j (by simpa using hj)
      · simp only [List.map_cons, List.map_nil, run_cons_of_ok b _ _ _ hstep, run_nil]
        refine ⟨trivial, ?_, ?_⟩
        · simp only [fillResult, hq, if_true, hfo]
          exact StdMap.find_erase_self _ _ (StdMap.WF_assign _ _ _ hwf.2.1)
        · rw [hvolnew, hfq]
    · have hrestpos : 0 < totalFillQty rest :=
        totalFillQty_pos rest hrest (fun g hg => (hfs g (List.mem_cons_of_mem _ hg)).2)
      have hq : ¬ ord.qty - f.fill.fill_qty = 0 := by omega
      have hfind2 : (fillResult b f ord).resting_orders.find o =
          some { ord with qty := ord.qty - f.fill.fill_qty } := by
        simp only [fillResult, hq, if_false, hfo, StdMap.find_assign_self, hfind, Option.map_some']
      have hih := ih (fillResult b f ord) { ord with qty := ord.qty - f.fill.fill_qty }
        (WF_fillResult b f ord hwf) hfind2
        (fun g hg => hfs g (List.mem_cons_of_mem _ hg)) hrest (by simp only; omega)
        (by simp only [hvolnew, Option.getD_some]; omega)
      refine ⟨?_, ?_⟩
      · intro j hj
        cases j with
        | zero => exact hzero 0 rfl
        | succ j' =>
          have hj' : j' < rest.length := by simpa using hj
          simp only [List.take_succ_cons, List.map_cons, run_cons_of_ok b _ _ _ hstep,
            totalFillQty_cons]
          refine ⟨(hih.1 j' hj').1, ?_⟩
          rw [(hih.1 j' hj').2, Nat.sub_sub]
      · simp only [List.map_cons, run_cons_of_ok b _ _ _ hstep]
        refine ⟨hih.2.1, hih.2.2.1, ?_⟩
        have h3 := hih.2.2.2
        simp only [hvolnew, Option.getD_some] at h3
        rw [h3]
        congr 1
        omega

end OrderBook

/-! ## The frame reader -/

theorem storeAt_zero_full (buf got : List Nat) (h : got.length = buf.length) :
    storeAt buf 0 got = got := by
  simp [storeAt, h]

theorem storeAt_tail (hd pad got : List Nat) (h : got.length = pad.length) :
    storeAt (hd ++ pad) hd.length got = hd ++ got := by
  simp [storeAt, h]

theorem read_of_le (s : IStream) (n : Nat) (he : s.eofbit = false) (hf : s.failbit = false)
    (h : n ≤ s.data.length) : s.read n = (s.data.take n, ⟨s.data.drop n, false, false⟩) := by
  simp [IStream.read, he, hf, h]

theorem read_of_lt (s : IStream) (n : Nat) (he : s.eofbit = false) (hf : s.failbit = false)
    (h : s.data.length < n) : s.read n = (s.data, ⟨[], true, true⟩) := by
  simp [IStream.read, he, hf, not_le.2 h]

theorem header_buffer (data : List Nat) (h : 22 ≤ data.length) :
    storeAt (List.replicate sizeofHeader 0) 0 (data.take sizeofHeader) =
      data.take sizeofHeader :=
  storeAt_zero_full _ _ (by simp [sizeofHeader]; omega)

theorem header_msg_len (data : List Nat) :
    leNat (((data.take sizeofHeader).drop 20).take 2) = frameMsgLen data := by
  simp [frameMsgLen, sizeofHeader, List.drop_take, List.take_take]

/-- A stream that ends inside the header: `GetMsg` throws `EndOfDataException`. -/
theorem GetMsg_short_header (past : Nat) (input : IStream) (he : input.eofbit = false)
    (hf : input.failbit = false) (hlen : input.data.length < 22) :
    Producer.GetMsg past input = (GetMsgResult.EndOfDataException, ⟨[], true, true⟩) := by
  simp only [Producer.GetMsg, he]
  rw [read_of_lt input sizeofHeader he hf hlen]
  rfl

/-- A stream that holds a header but not all of its payload: `GetMsg` throws
`EndOfDataException`. -/
theorem GetMsg_short_payload (past : Nat) (input : IStream) (he : input.eofbit = false)
    (hf : input.failbit = false) (hlen : 22 ≤ input.data.length)
    (hpay : input.data.length < 22 + frameMsgLen input.data) :
    Producer.GetMsg past input = (GetMsgResult.EndOfDataException, ⟨[], true, true⟩) := by
  have h2 : (input.data.drop sizeofHeader).length < frameMsgLen input.data := by
    simp [sizeofHeader]; omega
  simp only [Producer.GetMsg, he]
  rw [read_of_le input sizeofHeader he hf hlen]
  simp only [header_buffer input.data hlen, header_msg_len]
  rw [read_of_lt ⟨input.data.drop sizeofHeader, false, false⟩ _ rfl rfl h2]
  rfl

/-- A stream that starts with a complete frame: `GetMsg` dispatches on exactly the bytes
of that frame and leaves the stream good, positioned behind the frame. -/
theorem GetMsg_complete (past : Nat) (input : IStream) (he : input.eofbit = false)
    (hf : input.failbit = false)
    (hpay : 22 + frameMsgLen input.data ≤ input.data.length) :
    Producer.GetMsg past input =
      (Producer.dispatch past (input.data.take (22 + frameMsgLen input.data)),
        ⟨input.data.drop (22 + frameMsgLen input.data), false, false⟩) := by
  have hlen : 22 ≤ input.data.length := by omega
  have h2 : frameMsgLen input.data ≤ (input.data.drop sizeofHeader).length := by
    simp [sizeofHeader]; omega
  have hl : (input.data.take sizeofHeader).length = sizeofHeader := by
    simp [sizeofHeader]; omega
  have hst : storeAt (input.data.take sizeofHeader ++ List.replicate (frameMsgLen input.data) 0)
      sizeofHeader ((input.data.drop sizeofHeader).take (frameMsgLen input.data)) =
      input.data.take (22 + frameMsgLen input.data) := by
    have h3 := storeAt_tail (input.data.take sizeofHeader)
      (List.replicate (frameMsgLen input.data) 0)
      ((input.data.drop sizeofHeader).take (frameMsgLen input.data))
      (by rw [List.length_take, List.length_replicate]; exact Nat.min_eq_left h2)
    rw [hl] at h3
    rw [h3, List.take_add]
    rfl
  have hd : (input.data.drop sizeofHeader).drop (frameMsgLen input.data) =
      input.data.drop (22 + frameMsgLen input.data) := by
    rw [List.drop_drop]; rfl
  simp only [Producer.GetMsg, he]
  rw [read_of_le input sizeofHeader he hf hlen]
  simp only [header_buffer input.data hlen, header_msg_len]
  rw [read_of_le ⟨input.data.drop sizeofHeader, false, false⟩ _ rfl rfl h2]
  simp only [hst, hd]
  rfl

/-- The `switch` never ends in `EndOfDataException`. -/
theorem dispatch_ne_end (past : Nat) (buf : List Nat) :
    Producer.dispatch past buf ≠ GetMsgResult.EndOfDataException := by
  unfold Producer.dispatch
  simp only
  split
  · simp
  · split
    · simp
    · split <;> simp

/-- On a buffer that holds a whole `OrderFill` and has message type 3, the `switch`
returns the buffer with the count byte at offset 38 as `num_contras`, and with the
counterparty pointer null for a count of 0 and at offset `22 + 39 = 61` otherwise. -/
theorem dispatch_fill (past : Nat) (buf : List Nat) (hty : (buf.drop 2).headD 0 = MsgType.FILL)
    (hlen : 39 ≤ buf.length) :
    Producer.dispatch past buf =
      GetMsgResult.returned
        ⟨buf, buf.length, MsgType.FILL,
          if leNat ((buf.drop 38).take 1) = 0 then none else some 61,
          leNat ((buf.drop 38).take 1)⟩ := by
  have hb : bytesAt buf 38 1 = some ((buf.drop 38).take 1) := by
    simp [bytesAt]; omega
  simp only [Producer.dispatch, hty, if_true, hb]
  rfl

/-- On a buffer of message type 3 that ends before offset 38 the `switch` still returns
the buffer, with its length and type; the count and the pointer come from `past`. -/
theorem dispatch_fill_short (past : Nat) (buf : List Nat)
    (hty : (buf.drop 2).headD 0 = MsgType.FILL) (hlen : buf.length < 39) :
    Producer.dispatch past buf =
      GetMsgResult.returned
        ⟨buf, buf.length, MsgType.FILL, if past = 0 then none else some 61, past⟩ := by
  have hb : bytesAt buf 38 1 = none := by
    simp [bytesAt]; omega
  simp only [Producer.dispatch, hty, if_true, hb]
  rfl

/-- Every complete Fill frame at the head of a good stream: `GetMsg` returns the frame
bytes with `num_contras` equal to the count byte at offset 38, the counterparty pointer
null for a count of 0 and at offset 61 otherwise. -/
theorem GetMsg_fill_frame (past : Nat) (input : IStream) (he : input.eofbit = false)
    (hf : input.failbit = false)
    (hpay : 22 + frameMsgLen input.data ≤ input.data.length)
    (hty : ((input.data.take (22 + frameMsgLen input.data)).drop 2).headD 0 = MsgType.FILL)
    (hlen : 17 ≤ frameMsgLen input.data) :
    (Producer.GetMsg past input).1 =
      GetMsgResult.returned
        ⟨input.data.take (22 + frameMsgLen input.data), 22 + frameMsgLen input.data,
          MsgType.FILL,
          if leNat (((input.data.take (22 + frameMsgLen input.data)).drop 38).take 1) = 0
            then none else some 61,
          leNat (((input.data.take (22 + frameMsgLen input.data)).drop 38).take 1)⟩ := by
  have hl : (input.data.take (22 + frameMsgLen input.data)).length =
      22 + frameMsgLen input.data := by
    rw [List.length_take]; exact Nat.min_eq_left hpay
  rw [GetMsg_complete past input he hf hpay, dispatch_fill past _ hty (by rw [hl]; omega), hl]

theorem frameMsgType_take (data : List Nat) (n : Nat) (hn : 3 ≤ n) :
    frameMsgType (data.take n) = frameMsgType data := by
  unfold frameMsgType
  rw [List.drop_take]
  cases h : data.drop 2 with
  | nil => simp
  | cons x t =>
    have h1 : n - 2 = (n - 3) + 1 := by omega
    rw [h1, List.take_succ_cons]
    rfl

/-- On a buffer of message type 1 or 2 the `switch` returns the buffer, without
counterparty pointer. -/
theorem dispatch_entry_ack (past : Nat) (buf : List Nat)
    (hty : frameMsgType buf = MsgType.ENTRY ∨ frameMsgType buf = MsgType.ACK) :
    Producer.dispatch past buf =
      GetMsgResult.returned ⟨buf, buf.length, frameMsgType buf, none, 0⟩ := by
  unfold frameMsgType at hty ⊢
  rcases hty with h | h
  · simp only [Producer.dispatch, h]
    rw [if_neg (by decide), if_neg (by decide), if_pos trivial]
  · simp only [Producer.dispatch, h]
    rw [if_neg (by decide), if_pos trivial]

/-- On a buffer whose message type is none of 1, 2, 3 the `switch` throws. -/
theorem dispatch_unknown (past : Nat) (buf : List Nat) (h1 : frameMsgType buf ≠ MsgType.ENTRY)
    (h2 : frameMsgType buf ≠ MsgType.ACK) (h3 : frameMsgType buf ≠ MsgType.FILL) :
    Producer.dispatch past buf = GetMsgResult.MalformedInputException := by
  unfold frameMsgType at h1 h2 h3
  simp only [Producer.dispatch]
  rw [if_neg h3, if_neg h2, if_neg h1]

/-! ## The maximum scan of the two trader queries -/

theorem lookupKV_mem {K V : Type} [LinearOrder K] (k : K) (v : V) (l : List (K × V))
    (h : StdMap.lookupKV k l = some v) : (k, v) ∈ l := by
  induction l with
  | nil => simp [StdMap.lookupKV] at h
  | cons p t ih =>
    obtain ⟨k1, v1⟩ := p
    simp only [StdMap.lookupKV] at h
    by_cases h1 : k1 = k
    · simp only [h1, if_true, Option.some.injEq] at h
      subst h1; subst h
      exact List.mem_cons_self _ _
    · simp only [h1, if_false] at h
      exact List.mem_cons_of_mem _ (ih h)

theorem lookupKV_of_mem {K V : Type} [LinearOrder K] (k : K) (v : V) (l : List (K × V))
    (hwf : l.Pairwise (fun a b => a.1 < b.1)) (h : (k, v) ∈ l) :
    StdMap.lookupKV k l = some v := by
  induction l with
  | nil => cases h
  | cons p t ih =>
    obtain ⟨k1, v1⟩ := p
    rw [List.pairwise_cons] at hwf
    rcases List.mem_cons.1 h with h | h
    · cases h
      simp [StdMap.lookupKV]
    · have hlt : k1 < k := hwf.1 (k, v) h
      simp only [StdMap.lookupKV, ne_of_lt hlt, if_false]
      exact ih hwf.2 h

theorem lookupKV_isSome_of_mem {K V : Type} [LinearOrder K] (k : K) (v : V)
    (l : List (K × V)) (h : (k, v) ∈ l) : (StdMap.lookupKV k l).isSome := by
  induction l with
  | nil => cases h
  | cons p t ih =>
    obtain ⟨k1, v1⟩ := p
    by_cases h1 : k1 = k
    · simp [StdMap.lookupKV, h1]
    · rcases List.mem_cons.1 h with h | h
      · cases h; exact absurd rfl h1
      · simp only [StdMap.lookupKV, h1, if_false]
        exact ih h

/-- The scan ends with a value that bounds every value seen, and either keeps its
initial locals (nothing exceeded `vol`) or ends on an entry with a larger value. -/
theorem maxScan_cases (l : List (ByteString × Nat)) :
    ∀ (t0 : ByteString) (v0 : Nat),
      (∀ p ∈ l, p.2 ≤ (maxScan l t0 v0).2) ∧ v0 ≤ (maxScan l t0 v0).2 ∧
      ((maxScan l t0 v0 = (t0, v0) ∧ ∀ p ∈ l, p.2 ≤ v0) ∨
        (maxScan l t0 v0 ∈ l ∧ v0 < (maxScan l t0 v0).2)) := by
  induction l with
  | nil =>
    intro t0 v0
    exact ⟨fun p hp => (by cases hp), le_refl _, Or.inl ⟨rfl, fun p hp => (by cases hp)⟩⟩
  | cons q t ih =>
    obtain ⟨k, v⟩ := q
    intro t0 v0
    by_cases hgt : v > v0
    · have hs : maxScan ((k, v) :: t) t0 v0 = maxScan t k v := by simp [maxScan, hgt]
      rw [hs]
      obtain ⟨hb, hv, hc⟩ := ih k v
      refine ⟨?_, by omega, Or.inr ?_⟩
      · intro p hp
        rcases List.mem_cons.1 hp with h | h
        · subst h; exact hv
        · exact hb p h
      · rcases hc with ⟨he, _⟩ | ⟨hm, hlt⟩
        · rw [he]; exact ⟨List.mem_cons_self _ _, hgt⟩
        · exact ⟨List.mem_cons_of_mem _ hm, by omega⟩
    · have hs : maxScan ((k, v) :: t) t0 v0 = maxScan t t0 v0 := by simp [maxScan, hgt]
      rw [hs]
      obtain ⟨hb, hv, hc⟩ := ih t0 v0
      refine ⟨?_, hv, ?_⟩
      · intro p hp
        rcases List.mem_cons.1 hp with h | h
        · subst h; simp only; omega
        · exact hb p h
      · rcases hc with ⟨he, hall⟩ | ⟨hm, hlt⟩
        · refine Or.inl ⟨he, ?_⟩
          intro p hp
          rcases List.mem_cons.1 hp with h | h
          · subst h; simp only; omega
          · exact hall p h
        · exact Or.inr ⟨List.mem_cons_of_mem _ hm, hlt⟩

/-- On entries in ascending key order the scan ends on the smallest key among those that
carry its final value, whenever that value exceeds the initial `vol`. -/
theorem maxScan_first (l : List (ByteString × Nat)) :
    ∀ (t0 : ByteString) (v0 : Nat), l.Pairwise (fun a b => a.1 < b.1) →
      v0 < (maxScan l t0 v0).2 →
      ∀ p ∈ l, p.2 = (maxScan l t0 v0).2 → (maxScan l t0 v0).1 ≤ p.1 := by
  induction l with
  | nil => intro t0 v0 _ _ p hp; cases hp
  | cons q t ih =>
    obtain ⟨k, v⟩ := q
    intro t0 v0 hwf hlt p hp hpv
    rw [List.pairwise_cons] at hwf
    by_cases hgt : v > v0
    · have hs : maxScan ((k, v) :: t) t0 v0 = maxScan t k v := by simp [maxScan, hgt]
      rw [hs] at hlt hpv ⊢
      obtain ⟨_, hv, hc⟩ := maxScan_cases t k v
      rcases hc with ⟨he, _⟩ | ⟨_, hlt2⟩
      · rw [he]
        rcases List.mem_cons.1 hp with h | h
        · subst h; exact le_refl _
        · exact le_of_lt (hwf.1 p h)
      · rcases List.mem_cons.1 hp with h | h
        · subst h; simp only at hpv; omega
        · exact ih k v hwf.2 hlt2 p h hpv
    · have hs : maxScan ((k, v) :: t) t0 v0 = maxScan t t0 v0 := by simp [maxScan, hgt]
      rw [hs] at hlt hpv ⊢
      rcases List.mem_cons.1 hp with h | h
      · subst h; simp only at hpv; omega
      · exact ih t0 v0 hwf.2 hlt p h hpv

/-- A map of trader tags in which some value is positive: the scan from `("", 0)` ends
on a key of the map that carries the maximum value and is the smallest such key. -/
theorem maxScan_of_pos (m : StdMap ByteString Nat) (hwf : m.WF) (htag : TagKeys m)
    (hpos : ∃ p ∈ m.entries, 0 < p.2) :
    ∃ t v, maxScan m.entries [] 0 = (t, v) ∧ t ≠ [] ∧ m.find t = some v ∧ 0 < v ∧
      (∀ t' v', m.find t' = some v' → v' ≤ v) ∧ (∀ t', m.find t' = some v → t ≤ t') := by
  obtain ⟨hb, _, hc⟩ := maxScan_cases m.entries [] 0
  obtain ⟨p, hp, hp0⟩ := hpos
  rcases hc with ⟨_, hall⟩ | ⟨hm, hlt⟩
  · have := hall p hp; omega
  · refine ⟨(maxScan m.entries [] 0).1, (maxScan m.entries [] 0).2, rfl, ?_, ?_, hlt, ?_, ?_⟩
    · intro he
      have h3 := htag _ hm
      rw [he] at h3
      simp at h3
    · exact lookupKV_of_mem _ _ _ hwf hm
    · intro t' v' hf
      exact hb (t', v') (lookupKV_mem _ _ _ hf)
    · intro t' hf
      exact maxScan_first m.entries [] 0 hwf hlt (t', _) (lookupKV_mem _ _ _ hf) rfl

/-- The scan from `("", 0)` over a map of trader tags ends with the empty string
exactly when no value is positive, and otherwise on a key of the map. -/
theorem maxScan_empty_iff (m : StdMap ByteString Nat) (htag : TagKeys m) :
    ((maxScan m.entries [] 0).1 = [] ↔ ∀ p ∈ m.entries, p.2 = 0) ∧
    ((maxScan m.entries [] 0).1 ≠ [] → (m.find (maxScan m.entries [] 0).1).isSome) := by
  obtain ⟨_, _, hc⟩ := maxScan_cases m.entries [] 0
  rcases hc with ⟨he, hall⟩ | ⟨hm, hlt⟩
  · rw [he]
    refine ⟨⟨fun _ p hp => Nat.le_zero.1 (hall p hp), fun _ => rfl⟩, fun h => absurd rfl h⟩
  · have h3 := htag _ hm
    have hne : (maxScan m.entries [] 0).1 ≠ [] := by
      intro he
      rw [he] at h3
      simp at h3
    refine ⟨⟨fun h => absurd h hne, fun h => ?_⟩, fun _ => lookupKV_isSome_of_mem _ _ _ hm⟩
    have := h _ hm
    omega

/-! ## Invariants of whole runs -/

theorem mem_assignKV {K V : Type} [LinearOrder K] (k : K) (v : V) (l : List (K × V))
    (p : K × V) (hp : p ∈ StdMap.assignKV k v l) : p = (k, v) ∨ p ∈ l := by
  induction l with
  | nil => cases hp
  | cons q t ih =>
    obtain ⟨k1, v1⟩ := q
    by_cases h1 : k1 = k
    · simp only [StdMap.assignKV, h1, if_true, List.mem_cons] at hp
      rcases hp with hp | hp
      · exact Or.inl hp
      · exact Or.inr (List.mem_cons_of_mem _ hp)
    · simp only [StdMap.assignKV, h1, if_false, List.mem_cons] at hp
      rcases hp with hp | hp
      · exact Or.inr (hp ▸ List.mem_cons_self _ _)
      · rcases ih hp with h | h
        · exact Or.inl h
        · exact Or.inr (List.mem_cons_of_mem _ h)

theorem mem_of_mem_eraseKV {K V : Type} [LinearOrder K] (k : K) (l : List (K × V))
    (p : K × V) (hp : p ∈ StdMap.eraseKV k l) : p ∈ l :=
  (StdMap.eraseKV_sublist k l).subset hp

/-- Erasing the entry that was just assigned is erasing the entry that was there. -/
theorem eraseKV_assignKV {K V : Type} [LinearOrder K] (k : K) (v : V) (l : List (K × V)) :
    StdMap.eraseKV k (StdMap.assignKV k v l) = StdMap.eraseKV k l := by
  induction l with
  | nil => rfl
  | cons q t ih =>
    obtain ⟨k1, v1⟩ := q
    by_cases h1 : k1 = k
    · simp [StdMap.assignKV, StdMap.eraseKV, h1]
    · simp [StdMap.assignKV, StdMap.eraseKV, h1, ih]

theorem mem_insert_fst {K V : Type} [LinearOrder K] (m : StdMap K V) (k : K) (v : V)
    (p : K × V) (hp : p ∈ (m.insert k v).1.entries) : p = (k, v) ∨ p ∈ m.entries := by
  unfold StdMap.insert at hp
  cases h : m.find k with
  | none =>
    rw [h] at hp
    exact StdMap.mem_insertKV k v m.entries p hp
  | some x =>
    rw [h] at hp
    exact Or.inr hp

theorem mem_of_find {K V : Type} [LinearOrder K] (m : StdMap K V) (k : K) (v : V)
    (h : m.find k = some v) : (k, v) ∈ m.entries :=
  lookupKV_mem k v m.entries h

/-- One event keeps all pending and resting quantities positive, when an entry event
carries a positive quantity. -/
theorem PosQty_apply (b : OrderBook) (ev : Event) (h : PosQty b)
    (hev : ∀ order, ev = Event.entry order → 0 < order.qty) : PosQty (b.apply ev).book := by
  obtain ⟨hp, hr⟩ := h
  cases ev with
  | entry order =>
    show PosQty (b.Add order).book
    cases hf : b.pending_orders.find order.client_id with
    | some prev => rw [OrderBook.Add_of_find_some b order prev hf]; exact ⟨hp, hr⟩
    | none =>
      rw [OrderBook.Add_of_find_none b order hf]
      refine ⟨?_, hr⟩
      intro p hmem
      rcases mem_insert_fst _ _ _ p hmem with h1 | h1
      · rw [h1]; exact hev order rfl
      · exact hp p h1
  | ack a =>
    show PosQty (b.Ack a).book
    cases hf : b.pending_orders.find a.client_id with
    | none => rw [OrderBook.Ack_of_find_none b a hf]; exact ⟨hp, hr⟩
    | some order =>
      have hpe : ∀ p ∈ (b.pending_orders.erase a.client_id).entries, 0 < p.2.qty :=
        fun p hmem => hp p (mem_of_mem_eraseKV _ _ p hmem)
      by_cases hg : a.order_status = OrderStatus.GOOD
      · cases hrf : b.resting_orders.find a.order_id with
        | some other =>
          rw [OrderBook.Ack_good_of_resting b a order other hf hg hrf]; exact ⟨hp, hr⟩
        | none =>
          rw [OrderBook.Ack_good_of_not_resting b a order hf hg hrf]
          refine ⟨hpe, ?_⟩
          intro p hmem
          rcases mem_insert_fst _ _ _ p hmem with h1 | h1
          · rw [h1]; exact hp (a.client_id, order) (mem_of_find _ _ _ hf)
          · exact hr p h1
      · by_cases hj : a.order_status = OrderStatus.REJECT
        · rw [OrderBook.Ack_reject b a order hf hj]; exact ⟨hpe, hr⟩
        · rw [OrderBook.Ack_other_status b a order hf hg hj]; exact ⟨hp, hr⟩
  | fill f =>
    show PosQty (b.Fill f).book
    cases hf : b.resting_orders.find f.fill.order_id with
    | none => rw [OrderBook.Fill_of_find_none b f hf]; exact ⟨hp, hr⟩
    | some order0 =>
      by_cases hlt : order0.qty < f.fill.fill_qty
      · rw [OrderBook.Fill_of_lt b f order0 hf hlt]; exact ⟨hp, hr⟩
      · rw [OrderBook.Fill_of_le b f order0 hf (not_lt.1 hlt)]
        refine ⟨hp, ?_⟩
        intro p hmem
        by_cases hq : order0.qty - f.fill.fill_qty = 0
        · simp only [OrderBook.fillResult, hq, if_true, StdMap.erase, StdMap.assign,
            eraseKV_assignKV] at hmem
          exact hr p (mem_of_mem_eraseKV _ _ p hmem)
        · simp only [OrderBook.fillResult, hq, if_false, StdMap.assign] at hmem
          rcases mem_assignKV _ _ _ p hmem with h1 | h1
          · rw [h1]; exact Nat.pos_of_ne_zero hq
          · exact hr p h1

/-- A run keeps all pending and resting quantities positive, when every entry event
carries a positive quantity. -/
theorem PosQty_run (evs : List Event) :
    ∀ b : OrderBook, PosQty b → (∀ order, Event.entry order ∈ evs → 0 < order.qty) →
      PosQty (b.run evs).book := by
  induction evs with
  | nil => intro b h _; exact h
  | cons ev rest ih =>
    intro b h hev
    have hstep := PosQty_apply b ev h (fun order ho => hev order (ho ▸ List.mem_cons_self _ _))
    simp only [OrderBook.run]
    cases hv : (b.apply ev).violation with
    | some v => exact hstep
    | none => exact ih _ hstep (fun order ho => hev order (List.mem_cons_of_mem _ ho))

/-- An order id that is not resting is still not resting after one event, unless the
event is a good ack carrying that order id. -/
theorem absent_apply (o : Nat) (b : OrderBook) (ev : Event)
    (h : b.resting_orders.find o = none)
    (hev : ∀ a, ev = Event.ack a → a.order_status = OrderStatus.GOOD → a.order_id ≠ o) :
    (b.apply ev).book.resting_orders.find o = none := by
  cases ev with
  | entry order =>
    show (b.Add order).book.resting_orders.find o = none
    cases hf : b.pending_orders.find order.client_id with
    | some prev => rw [OrderBook.Add_of_find_some b order prev hf]; exact h
    | none => rw [OrderBook.Add_of_find_none b order hf]; exact h
  | ack a =>
    show (b.Ack a).book.resting_orders.find o = none
    cases hf : b.pending_orders.find a.client_id with
    | none => rw [OrderBook.Ack_of_find_none b a hf]; exact h
    | some order =>
      by_cases hg : a.order_status = OrderStatus.GOOD
      · cases hrf : b.resting_orders.find a.order_id with
        | some other => rw [OrderBook.Ack_good_of_resting b a order other hf hg hrf]; exact h
        | none =>
          rw [OrderBook.Ack_good_of_not_resting b a order hf hg hrf]
          have hne : o ≠ a.order_id := Ne.symm (hev a rfl hg)
          simp only
          rw [StdMap.find_insert_of_ne _ _ _ _ hne]
          exact h
      · by_cases hj : a.order_status = OrderStatus.REJECT
        · rw [OrderBook.Ack_reject b a order hf hj]; exact h
        · rw [OrderBook.Ack_other_status b a order hf hg hj]; exact h
  | fill f =>
    show (b.Fill f).book.resting_orders.find o = none
    cases hf : b.resting_orders.find f.fill.order_id with
    | none => rw [OrderBook.Fill_of_find_none b f hf]; exact h
    | some order0 =>
      have hne : o ≠ f.fill.order_id := by
        intro he
        rw [he, hf] at h
        cases h
      by_cases hlt : order0.qty < f.fill.fill_qty
      · rw [OrderBook.Fill_of_lt b f order0 hf hlt]; exact h
      · rw [OrderBook.Fill_of_le b f order0 hf (not_lt.1 hlt)]
        by_cases hq : order0.qty - f.fill.fill_qty = 0
        · simp only [OrderBook.fillResult, hq, if_true]
          rw [StdMap.find_erase_of_ne _ _ _ hne, StdMap.find_assign_of_ne _ _ _ _ hne]
          exact h
        · simp only [OrderBook.fillResult, hq, if_false]
          rw [StdMap.find_assign_of_ne _ _ _ _ hne]
          exact h

/-- An order id that is not resting is not resting after a run in which no good ack
carries it. -/
theorem absent_run (o : Nat) (evs : List Event) :
    ∀ b : OrderBook, b.resting_orders.find o = none →
      (∀ a, Event.ack a ∈ evs → a.order_status = OrderStatus.GOOD → a.order_id ≠ o) →
      (b.run evs).book.resting_orders.find o = none := by
  induction evs with
  | nil => intro b h _; exact h
  | cons ev rest ih =>
    intro b h hev
    have hstep := absent_apply o b ev h
      (fun a ha => hev a (ha ▸ List.mem_cons_self _ _))
    simp only [OrderBook.run]
    cases hv : (b.apply ev).violation with
    | some v => exact hstep
    | none => exact ih _ hstep (fun a ha => hev a (List.mem_cons_of_mem _ ha))

/-- Pending orders change only by insertion in `Add` and erasure in `Ack`: a property of
all pending orders is kept by an event whose entry, if it is one, has the property. -/
theorem pending_apply (P : OrderEntry → Prop) (b : OrderBook) (ev : Event)
    (h : ∀ p ∈ b.pending_orders.entries, P p.2)
    (hev : ∀ order, ev = Event.entry order → P order) :
    ∀ p ∈ (b.apply ev).book.pending_orders.entries, P p.2 := by
  cases ev with
  | entry order =>
    show ∀ p ∈ (b.Add order).book.pending_orders.entries, P p.2
    cases hf : b.pending_orders.find order.client_id with
    | some prev => rw [OrderBook.Add_of_find_some b order prev hf]; exact h
    | none =>
      rw [OrderBook.Add_of_find_none b order hf]
      intro p hmem
      rcases mem_insert_fst _ _ _ p hmem with h1 | h1
      · rw [h1]; exact hev order rfl
      · exact h p h1
  | ack a =>
    show ∀ p ∈ (b.Ack a).book.pending_orders.entries, P p.2
    have hpe : ∀ p ∈ (b.pending_orders.erase a.client_id).entries, P p.2 :=
      fun p hmem => h p (mem_of_mem_eraseKV _ _ p hmem)
    cases hf : b.pending_orders.find a.client_id with
    | none => rw [OrderBook.Ack_of_find_none b a hf]; exact h
    | some order =>
      by_cases hg : a.order_status = OrderStatus.GOOD
      · cases hrf : b.resting_orders.find a.order_id with
        | some other => rw [OrderBook.Ack_good_of_resting b a order other hf hg hrf]; exact h
        | none => rw [OrderBook.Ack_good_of_not_resting b a order hf hg hrf]; exact hpe
      · by_cases hj : a.order_status = OrderStatus.REJECT
        · rw [OrderBook.Ack_reject b a order hf hj]; exact hpe
        · rw [OrderBook.Ack_other_status b a order hf hg hj]; exact h
  | fill f =>
    show ∀ p ∈ (b.Fill f).book.pending_orders.entries, P p.2
    cases hf : b.resting_orders.find f.fill.order_id with
    | none => rw [OrderBook.Fill_of_find_none b f hf]; exact h
    | some order0 =>
      by_cases hlt : order0.qty < f.fill.fill_qty
      · rw [OrderBook.Fill_of_lt b f order0 hf hlt]; exact h
      · rw [OrderBook.Fill_of_le b f order0 hf (not_lt.1 hlt)]; exact h

theorem pending_run (P : OrderEntry → Prop) (evs : List Event) :
    ∀ b : OrderBook, (∀ p ∈ b.pending_orders.entries, P p.2) →
      (∀ order, Event.entry order ∈ evs → P order) →
      ∀ p ∈ (b.run evs).book.pending_orders.entries, P p.2 := by
  induction evs with
  | nil => intro b h _; exact h
  | cons ev rest ih =>
    intro b h hev
    have hstep := pending_apply P b ev h
      (fun order ho => hev order (ho ▸ List.mem_cons_self _ _))
    simp only [OrderBook.run]
    cases hv : (b.apply ev).violation with
    | some v => exact hstep
    | none => exact ih _ hstep (fun order ho => hev order (List.mem_cons_of_mem _ ho))

/-- A pending order of a run from the empty book is one of the entries of the run, exactly
as it was received: the quantity an ack finds is the entry's original quantity. -/
theorem pending_orders_are_entries (evs : List Event) (c : Nat) (order : OrderEntry)
    (h : (OrderBook.empty.run evs).book.pending_orders.find c = some order) :
    Event.entry order ∈ evs :=
  pending_run (fun e => Event.entry e ∈ evs) evs OrderBook.empty
    (fun p hp => (by cases hp)) (fun _ ho => ho) (c, order) (mem_of_find _ _ _ h)

theorem WF_apply (b : OrderBook) (ev : Event) (h : b.WF) : (b.apply ev).book.WF := by
  cases ev with
  | entry order => exact OrderBook.WF_Add b order h
  | ack a => exact OrderBook.WF_Ack b a h
  | fill f => exact OrderBook.WF_Fill b f h

/-- Every book of a run from a well-formed book is well-formed. -/
theorem WF_run (evs : List Event) : ∀ b : OrderBook, b.WF → (b.run evs).book.WF := by
  induction evs with
  | nil => intro b h; exact h
  | cons ev rest ih =>
    intro b h
    simp only [OrderBook.run]
    cases hv : (b.apply ev).violation with
    | some v => exact WF_apply b ev h
    | none => exact ih _ (WF_apply b ev h)

/-- A resting order leaves the resting map at exactly one kind of event: a fill of that
order for its whole remaining quantity.  Every other event, accepted or not, leaves it
in the map. -/
theorem resting_leaves_iff (b : OrderBook) (ev : Event) (o : Nat) (order : OrderEntry)
    (hwf : b.WF) (h : b.resting_orders.find o = some order) :
    (b.apply ev).book.resting_orders.find o = none ↔
      ∃ f, ev = Event.fill f ∧ f.fill.order_id = o ∧ f.fill.fill_qty = order.qty := by
  have hno : ∀ b' : OrderBook, b'.resting_orders.find o = some order →
      ¬ b'.resting_orders.find o = none := by
    intro b' h1 h2
    rw [h1] at h2
    cases h2
  cases ev with
  | entry e =>
    have hs : (b.apply (Event.entry e)).book.resting_orders.find o = some order := by
      show (b.Add e).book.resting_orders.find o = some order
      cases hf : b.pending_orders.find e.client_id with
      | some prev => rw [OrderBook.Add_of_find_some b e prev hf]; exact h
      | none => rw [OrderBook.Add_of_find_none b e hf]; exact h
    constructor
    · intro hn; rw [hs] at hn; cases hn
    · rintro ⟨f, hev, _⟩; cases hev
  | ack a =>
    have hs : (b.apply (Event.ack a)).book.resting_orders.find o = some order := by
      show (b.Ack a).book.resting_orders.find o = some order
      cases hf : b.pending_orders.find a.client_id with
      | none => rw [OrderBook.Ack_of_find_none b a hf]; exact h
      | some pend =>
        by_cases hg : a.order_status = OrderStatus.GOOD
        · cases hrf : b.resting_orders.find a.order_id with
          | some other => rw [OrderBook.Ack_good_of_resting b a pend other hf hg hrf]; exact h
          | none =>
            rw [OrderBook.Ack_good_of_not_resting b a pend hf hg hrf]
            have hne : o ≠ a.order_id := by
              intro he
              rw [he, hrf] at h
              cases h
            simp only
            rw [StdMap.find_insert_of_ne _ _ _ _ hne]
            exact h
        · by_cases hj : a.order_status = OrderStatus.REJECT
          · rw [OrderBook.Ack_reject b a pend hf hj]; exact h
          · rw [OrderBook.Ack_other_status b a pend hf hg hj]; exact h
    constructor
    · intro hn; rw [hs] at hn; cases hn
    · rintro ⟨f, hev, _⟩; cases hev
  | fill f =>
    show (b.Fill f).book.resting_orders.find o = none ↔ _
    by_cases ho : f.fill.order_id = o
    · have hf : b.resting_orders.find f.fill.order_id = some order := by rw [ho]; exact h
      by_cases hlt : order.qty < f.fill.fill_qty
      · rw [OrderBook.Fill_of_lt b f order hf hlt]
        constructor
        · intro hn; exact absurd hn (hno b h)
        · rintro ⟨g, hev, _, hq⟩
          cases hev
          omega
      · rw [OrderBook.Fill_of_le b f order hf (not_lt.1 hlt)]
        by_cases hq : order.qty - f.fill.fill_qty = 0
        · constructor
          · intro _
            exact ⟨f, rfl, ho, by omega⟩
          · intro _
            simp only [OrderBook.fillResult, hq, if_true]
            rw [← ho]
            exact StdMap.find_erase_self _ _ (StdMap.WF_assign _ _ _ hwf.2.1)
        · constructor
          · intro hn
            simp only [OrderBook.fillResult, hq, if_false] at hn
            rw [← ho, StdMap.find_assign_self, hf] at hn
            cases hn
          · rintro ⟨g, hev, _, hg⟩
            cases hev
            omega
    · have hne : o ≠ f.fill.order_id := Ne.symm ho
      have hs : (b.Fill f).book.resting_orders.find o = some order := by
        cases hf : b.resting_orders.find f.fill.order_id with
        | none => rw [OrderBook.Fill_of_find_none b f hf]; exact h
        | some order0 =>
          by_cases hlt : order0.qty < f.fill.fill_qty
          · rw [OrderBook.Fill_of_lt b f order0 hf hlt]; exact h
          · rw [OrderBook.Fill_of_le b f order0 hf (not_lt.1 hlt)]
            by_cases hq : order0.qty - f.fill.fill_qty = 0
            · simp only [OrderBook.fillResult, hq, if_true]
              rw [StdMap.find_erase_of_ne _ _ _ hne, StdMap.find_assign_of_ne _ _ _ _ hne]
              exact h
            · simp only [OrderBook.fillResult, hq, if_false]
              rw [StdMap.find_assign_of_ne _ _ _ _ hne]
              exact h
      constructor
      · intro hn; rw [hs] at hn; cases hn
      · rintro ⟨g, hev, hg, _⟩
        cases hev
        exact absurd hg ho

/-- A fill for less than the remaining quantity of a resting order leaves the order in
the map with the remaining quantity reduced by the fill quantity. -/
theorem resting_after_partial_fill (b : OrderBook) (f : FillMsg) (order : OrderEntry)
    (h : b.resting_orders.find f.fill.order_id = some order)
    (hlt : f.fill.fill_qty < order.qty) :
    (b.apply (Event.fill f)).book.resting_orders.find f.fill.order_id =
      some { order with qty := order.qty - f.fill.fill_qty } := by
  show (b.Fill f).book.resting_orders.find f.fill.order_id = _
  rw [OrderBook.Fill_of_le b f order h (le_of_lt hlt)]
  have hq : ¬ order.qty - f.fill.fill_qty = 0 := by omega
  simp only [OrderBook.fillResult, hq, if_false, StdMap.find_assign_self, h, Option.map_some']

/-! ## Conservation of quantity -/

theorem sum_insertKV {K V : Type} [LinearOrder K] (f : V → Nat) (k : K) (v : V)
    (l : List (K × V)) :
    ((StdMap.insertKV k v l).map (fun p => f p.2)).sum = f v + (l.map (fun p => f p.2)).sum := by
  induction l with
  | nil => simp [StdMap.insertKV]
  | cons q t ih =>
    obtain ⟨k1, v1⟩ := q
    by_cases hlt : k1 < k
    · simp only [StdMap.insertKV, hlt, if_true, List.map_cons, List.sum_cons, ih]
      omega
    · simp only [StdMap.insertKV, hlt, if_false, List.map_cons, List.sum_cons]

theorem sum_assignKV {K V : Type} [LinearOrder K] (f : V → Nat) (k : K) (v old : V)
    (l : List (K × V)) (h : StdMap.lookupKV k l = some old) :
    ((StdMap.assignKV k v l).map (fun p => f p.2)).sum + f old =
      (l.map (fun p => f p.2)).sum + f v := by
  induction l with
  | nil => simp [StdMap.lookupKV] at h
  | cons q t ih =>
    obtain ⟨k1, v1⟩ := q
    simp only [StdMap.lookupKV] at h
    by_cases h1 : k1 = k
    · simp only [h1, if_true, Option.some.injEq] at h
      subst h
      simp only [StdMap.assignKV, h1, if_true, List.map_cons, List.sum_cons]
      omega
    · simp only [h1, if_false] at h
      have := ih h
      simp only [StdMap.assignKV, h1, if_false, List.map_cons, List.sum_cons]
      omega

theorem sum_eraseKV {K V : Type} [LinearOrder K] (f : V → Nat) (k : K) (old : V)
    (l : List (K × V)) (h : StdMap.lookupKV k l = some old) :
    ((StdMap.eraseKV k l).map (fun p => f p.2)).sum + f old = (l.map (fun p => f p.2)).sum := by
  induction l with
  | nil => simp [StdMap.lookupKV] at h
  | cons q t ih =>
    obtain ⟨k1, v1⟩ := q
    simp only [StdMap.lookupKV] at h
    by_cases h1 : k1 = k
    · simp only [h1, if_true, Option.some.injEq] at h
      subst h
      simp only [StdMap.eraseKV, h1, if_true, List.map_cons, List.sum_cons]
      omega
    · simp only [h1, if_false] at h
      have := ih h
      simp only [StdMap.eraseKV, h1, if_false, List.map_cons, List.sum_cons]
      omega

/-- A successful `Fill` moves its quantity from the resting total to the volume total,
as long as the two totals together are below `2^64`. -/
theorem conservation_fill (b : OrderBook) (f : FillMsg) (order0 : OrderEntry)
    (hf : b.resting_orders.find f.fill.order_id = some order0)
    (hle : f.fill.fill_qty ≤ order0.qty)
    (hb : b.totalVolume + b.totalResting < 2 ^ 64) :
    (OrderBook.fillResult b f order0).totalVolume + (OrderBook.fillResult b f order0).totalResting =
      b.totalVolume + b.totalResting := by
  have hE := sum_eraseKV OrderEntry.qty f.fill.order_id order0 b.resting_orders.entries hf
  have hA := sum_assignKV OrderEntry.qty f.fill.order_id
    { order0 with qty := order0.qty - f.fill.fill_qty } order0 b.resting_orders.entries hf
  have hR : (OrderBook.fillResult b f order0).totalResting + f.fill.fill_qty =
      b.totalResting := by
    by_cases hq : order0.qty - f.fill.fill_qty = 0
    · simp only [OrderBook.totalResting, OrderBook.fillResult, hq, if_true, StdMap.erase,
        StdMap.assign, eraseKV_assignKV]
      omega
    · simp only [OrderBook.totalResting, OrderBook.fillResult, hq, if_false, StdMap.assign]
      simp only at hA
      omega
  have hq_le : order0.qty ≤ b.totalResting := by
    simp only [OrderBook.totalResting]; omega
  have hV : (OrderBook.fillResult b f order0).totalVolume =
      b.totalVolume + f.fill.fill_qty := by
    simp only [OrderBook.totalVolume, OrderBook.fillResult, OrderBook.addVolume]
    cases hv : b.vol_per_instrument.find order0.instrument with
    | none =>
      simp only [StdMap.insert, hv]
      have := sum_insertKV (fun v : Nat => v) order0.instrument f.fill.fill_qty
        b.vol_per_instrument.entries
      simp only at this
      omega
    | some v =>
      have h1 := sum_eraseKV (fun v : Nat => v) order0.instrument v
        b.vol_per_instrument.entries hv
      have h2 := sum_assignKV (fun v : Nat => v) order0.instrument
        ((v + f.fill.fill_qty) % 2 ^ 64) v b.vol_per_instrument.entries hv
      simp only at h1 h2
      have h3 : v + f.fill.fill_qty < 2 ^ 64 := by
        simp only [OrderBook.totalVolume] at hb
        omega
      rw [Nat.mod_eq_of_lt h3] at h2
      simp only [StdMap.assign]
      rw [Nat.mod_eq_of_lt h3]
      omega
  omega

/-- One accepted event adds to the volume and resting totals exactly the quantity it
brings into the resting map. -/
theorem conservation_apply (b : OrderBook) (ev : Event)
    (hv : (b.apply ev).violation = none)
    (hb : b.totalVolume + b.totalResting + ackedQtyOf b ev < 2 ^ 64) :
    (b.apply ev).book.totalVolume + (b.apply ev).book.totalResting =
      b.totalVolume + b.totalResting + ackedQtyOf b ev := by
  cases ev with
  | entry order =>
    have hv' : (b.Add order).violation = none := hv
    show (b.Add order).book.totalVolume + (b.Add order).book.totalResting = _
    cases hf : b.pending_orders.find order.client_id with
    | some prev => rw [OrderBook.Add_of_find_some b order prev hf] at hv'; cases hv'
    | none => rw [OrderBook.Add_of_find_none b order hf]; rfl
  | ack a =>
    have hv' : (b.Ack a).violation = none := hv
    show (b.Ack a).book.totalVolume + (b.Ack a).book.totalResting = _
    cases hf : b.pending_orders.find a.client_id with
    | none => rw [OrderBook.Ack_of_find_none b a hf] at hv'; cases hv'
    | some order =>
      by_cases hg : a.order_status = OrderStatus.GOOD
      · cases hrf : b.resting_orders.find a.order_id with
        | some other =>
          rw [OrderBook.Ack_good_of_resting b a order other hf hg hrf] at hv'; cases hv'
        | none =>
          rw [OrderBook.Ack_good_of_not_resting b a order hf hg hrf]
          have hs := sum_insertKV OrderEntry.qty a.order_id order b.resting_orders.entries
          simp only [OrderBook.totalVolume, OrderBook.totalResting, ackedQtyOf, hg, if_true, hf,
            Option.map_some', Option.getD_some, StdMap.insert, hrf]
          omega
      · by_cases hj : a.order_status = OrderStatus.REJECT
        · rw [OrderBook.Ack_reject b a order hf hj]
          simp [OrderBook.totalVolume, OrderBook.totalResting, ackedQtyOf, hg]
        · rw [OrderBook.Ack_other_status b a order hf hg hj]
          simp [ackedQtyOf, hg]
  | fill f =>
    have hv' : (b.Fill f).violation = none := hv
    show (b.Fill f).book.totalVolume + (b.Fill f).book.totalResting = _
    cases hf : b.resting_orders.find f.fill.order_id with
    | none => rw [OrderBook.Fill_of_find_none b f hf] at hv'; cases hv'
    | some order0 =>
      by_cases hlt : order0.qty < f.fill.fill_qty
      · rw [OrderBook.Fill_of_lt b f order0 hf hlt] at hv'; cases hv'
      · rw [OrderBook.Fill_of_le b f order0 hf (not_lt.1 hlt)]
        have hb' : b.totalVolume + b.totalResting < 2 ^ 64 := by
          simp only [ackedQtyOf] at hb; omega
        simp only [ackedQtyOf, Nat.add_zero]
        exact conservation_fill b f order0 hf (not_lt.1 hlt) hb'

/-- Over a run without violation the volume and resting totals grow by exactly the
quantities acknowledged good, as long as the final total is below `2^64`. -/
theorem conservation_run (evs : List Event) :
    ∀ b : OrderBook, (b.run evs).violation = none →
      b.totalVolume + b.totalResting + ackedQty b evs < 2 ^ 64 →
      (b.run evs).book.totalVolume + (b.run evs).book.totalResting =
        b.totalVolume + b.totalResting + ackedQty b evs := by
  induction evs with
  | nil => intro b _ _; simp [OrderBook.run, ackedQty]
  | cons ev rest ih =>
    intro b hrun hb
    cases hv : (b.apply ev).violation with
    | some v =>
      simp only [OrderBook.run, hv] at hrun
      cases hrun
    | none =>
      simp only [OrderBook.run, ackedQty, hv] at hrun hb ⊢
      have hstep := conservation_apply b ev hv (by omega)
      have hrest := ih (b.apply ev).book hrun (by omega)
      omega

set_option maxRecDepth 100000

/-! ## The claims -/

/-- C1 at the failing input: order 500 (trader AAA) rests and AAA has no activity entry;
a fill of 1 with one counterparty of `2^32 - 1` leaves the activity of AAA at 0, where
fill quantity plus counterparty quantity is `2^32`.  The same fill on the same book with
an activity entry of 0 already present for AAA leaves `2^32`. -/
theorem Fill_activity_new_entry_truncated :
    bookResting.resting_orders.find fillBigContra.fill.order_id = some (entryAAA 100 2) ∧
    bookResting.vol_per_trader.find tagAAA = none ∧
    fillBigContra.fill.fill_qty + (fillBigContra.contra.map CounterParty.qty).sum =
      4294967296 ∧
    (bookResting.Fill fillBigContra).violation = none ∧
    (bookResting.Fill fillBigContra).book.vol_per_trader.find tagAAA = some 0 ∧
    bookActivityZero.vol_per_trader.find tagAAA = some 0 ∧
    (bookActivityZero.Fill fillBigContra).book.vol_per_trader.find tagAAA =
      some 4294967296 := by
  decide

/-- C2: an entry with quantity `q > 0` is added to the empty book and acknowledged good
under order id `o`; fills with positive quantities adding up to `q` are then applied to
`o`.  No step signals a violation; after each of the first `k - 1` fills `o` is resting
with remaining quantity `q` minus the quantity filled so far; after the last fill `o` is
not in the resting map and the volume of the entry's instrument is exactly `q`. -/
theorem entry_ack_fills_exhaust (order : OrderEntry) (ack : OrderAck) (fs : List FillMsg)
    (hq : 0 < order.qty) (hq32 : order.qty < 2 ^ 32)
    (hc : ack.client_id = order.client_id) (hs : ack.order_status = OrderStatus.GOOD)
    (hfs : ∀ f ∈ fs, f.fill.order_id = ack.order_id ∧ 0 < f.fill.fill_qty)
    (hne : fs ≠ []) (hsum : totalFillQty fs = order.qty) :
    (OrderBook.empty.Add order).violation = none ∧
    ((OrderBook.empty.Add order).book.Ack ack).violation = none ∧
    (∀ j, j < fs.length →
      (OrderBook.empty.run
        (Event.entry order :: Event.ack ack :: (fs.take j).map Event.fill)).violation = none ∧
      ((OrderBook.empty.run
        (Event.entry order :: Event.ack ack ::
          (fs.take j).map Event.fill)).book.resting_orders.find ack.order_id).map
            OrderEntry.qty = some (order.qty - totalFillQty (fs.take j))) ∧
    (OrderBook.empty.run
      (Event.entry order :: Event.ack ack :: fs.map Event.fill)).violation = none ∧
    (OrderBook.empty.run
      (Event.entry order :: Event.ack ack ::
        fs.map Event.fill)).book.resting_orders.find ack.order_id = none ∧
    (OrderBook.empty.run
      (Event.entry order :: Event.ack ack ::
        fs.map Event.fill)).book.vol_per_instrument.find order.instrument = some order.qty := by
  have _hq := hq
  have hadd := OrderBook.Add_of_find_none OrderBook.empty order rfl
  have hwf1 : (OrderBook.empty.Add order).book.WF := OrderBook.WF_Add _ _ OrderBook.WF_empty_book
  have hp : (OrderBook.empty.Add order).book.pending_orders.find ack.client_id = some order := by
    rw [hc, hadd]
    simp [StdMap.find_insert_self, OrderBook.empty, StdMap.empty, StdMap.find, StdMap.lookupKV]
  have hr : (OrderBook.empty.Add order).book.resting_orders.find ack.order_id = none := by
    rw [hadd]; rfl
  have hack := OrderBook.Ack_good_of_not_resting _ ack order hp hs hr
  have hwf2 : ((OrderBook.empty.Add order).book.Ack ack).book.WF := OrderBook.WF_Ack _ _ hwf1
  have hfind : ((OrderBook.empty.Add order).book.Ack ack).book.resting_orders.find ack.order_id =
      some order := by
    rw [hack]
    simp [StdMap.find_insert_self, hr]
  have hvol : ((OrderBook.empty.Add order).book.Ack ack).book.vol_per_instrument.find
      order.instrument = none := by
    rw [hack, hadd]; rfl
  have hstep1 : OrderBook.empty.apply (Event.entry order) =
      ⟨(OrderBook.empty.Add order).book, none⟩ := by
    show OrderBook.empty.Add order = _
    rw [hadd]
  have hstep2 : (OrderBook.empty.Add order).book.apply (Event.ack ack) =
      ⟨((OrderBook.empty.Add order).book.Ack ack).book, none⟩ := by
    show (OrderBook.empty.Add order).book.Ack ack = _
    rw [hack]
  have hmain := OrderBook.run_fills_exhaust ack.order_id fs _ order hwf2 hfind hfs hne hsum
    (by rw [hvol]; simp only [Option.getD_none]; omega)
  rw [hvol] at hmain
  simp only [Option.getD_none, Nat.zero_add] at hmain
  refine ⟨by rw [hadd], by rw [hack], ?_, ?_⟩
  · intro j hj
    rw [OrderBook.run_cons_of_ok _ _ _ _ hstep1, OrderBook.run_cons_of_ok _ _ _ _ hstep2]
    exact hmain.1 j hj
  · rw [OrderBook.run_cons_of_ok _ _ _ _ hstep1, OrderBook.run_cons_of_ok _ _ _ _ hstep2]
    exact hmain.2

/-- Witness for C2, the scenario: entry (quantity 100, GFD, trader AAA), good ack as order
500, a fill of 40 with one counterparty of 40, a fill of 60 with none.  Order 500 rests
with 60 after the first fill and is absent after the second; the volume of ABC is 100,
the activity of AAA is 140 and the liquidity of AAA is 100. -/
theorem entry_ack_fills_exhaust_witness :
    ((OrderBook.empty.run (scenarioEvents.take 3)).book.resting_orders.find 500).map
        OrderEntry.qty = some 60 ∧
    (OrderBook.empty.run scenarioEvents).violation = none ∧
    (OrderBook.empty.run scenarioEvents).book.resting_orders.find 500 = none ∧
    (OrderBook.empty.run scenarioEvents).book.vol_per_instrument.find instrABC = some 100 ∧
    (OrderBook.empty.run scenarioEvents).book.vol_per_trader.find tagAAA = some 140 ∧
    (OrderBook.empty.run scenarioEvents).book.liquidity_per_trader.find tagAAA = some 100 :=
  have h := entry_ack_fills_exhaust (entryAAA 100 TimeInForce.TIF_GFD) (ack500 OrderStatus.GOOD)
    [fill500 40 [⟨9, tagBBB, 40⟩], fill500 60 []] (by decide) (by decide) (by decide)
    (by decide) (by decide) (by decide) (by decide)
  ⟨(h.2.2.1 1 (by decide)).2, h.2.2.2.1, h.2.2.2.2.1, h.2.2.2.2.2, by decide, by decide⟩

/-- C3 as the code has it: for a pending entry with quantity `q` and trader tag `t`, and a
good ack whose order id is not resting: with time-in-force GFD the liquidity of `t`
becomes the old value plus `q` modulo `2^64` (`q` itself when `t` had no entry), which is
exactly the old value plus `q` whenever that is below `2^64`, and no other trader's
liquidity changes; with IOC, or any time-in-force other than GFD, the liquidity map is
unchanged.  `Add` and `Fill` never change the liquidity map. -/
theorem Ack_liquidity (b : OrderBook) (ack : OrderAck) (order : OrderEntry)
    (h : b.pending_orders.find ack.client_id = some order)
    (hs : ack.order_status = OrderStatus.GOOD)
    (hr : b.resting_orders.find ack.order_id = none) :
    (order.time_in_force = TimeInForce.TIF_GFD →
      (b.Ack ack).book.liquidity_per_trader.find order.trader_tag =
        some (match b.liquidity_per_trader.find order.trader_tag with
          | some v => (v + order.qty) % 2 ^ 64
          | none => order.qty) ∧
      ((b.liquidity_per_trader.find order.trader_tag).getD 0 + order.qty < 2 ^ 64 →
        (b.Ack ack).book.liquidity_per_trader.find order.trader_tag =
          some ((b.liquidity_per_trader.find order.trader_tag).getD 0 + order.qty)) ∧
      ∀ t, t ≠ order.trader_tag →
        (b.Ack ack).book.liquidity_per_trader.find t = b.liquidity_per_trader.find t) ∧
    (order.time_in_force = TimeInForce.TIF_IOC →
      (b.Ack ack).book.liquidity_per_trader = b.liquidity_per_trader) ∧
    (order.time_in_force ≠ TimeInForce.TIF_GFD →
      (b.Ack ack).book.liquidity_per_trader = b.liquidity_per_trader) ∧
    (∀ e, (b.Add e).book.liquidity_per_trader = b.liquidity_per_trader) ∧
    (∀ f, (b.Fill f).book.liquidity_per_trader = b.liquidity_per_trader) := by
  have hnot : order.time_in_force ≠ TimeInForce.TIF_GFD →
      (b.Ack ack).book.liquidity_per_trader = b.liquidity_per_trader := by
    intro hg
    rw [OrderBook.Ack_good_of_not_resting b ack order h hs hr]
    simp [hg]
  refine ⟨?_, ?_, hnot, ?_, ?_⟩
  · intro hg
    rw [OrderBook.Ack_good_of_not_resting b ack order h hs hr]
    simp only [hg, if_true]
    refine ⟨OrderBook.find_addLiquidity_self _ _, ?_,
      fun t ht => OrderBook.find_addLiquidity_of_ne _ _ _ ht⟩
    intro hlt
    rw [OrderBook.find_addLiquidity_self]
    cases hv : b.liquidity_per_trader.find order.trader_tag with
    | none => simp
    | some v =>
      rw [hv] at hlt
      simp only [Option.getD_some] at hlt ⊢
      rw [Nat.mod_eq_of_lt hlt]
  · intro hi
    apply hnot
    rw [hi]
    decide
  · intro e
    cases hp : b.pending_orders.find e.client_id with
    | none => rw [OrderBook.Add_of_find_none b e hp]
    | some prev => rw [OrderBook.Add_of_find_some b e prev hp]
  · intro f
    cases hf : b.resting_orders.find f.fill.order_id with
    | none => rw [OrderBook.Fill_of_find_none b f hf]
    | some order0 =>
      by_cases hlt : order0.qty < f.fill.fill_qty
      · rw [OrderBook.Fill_of_lt b f order0 hf hlt]
      · rw [OrderBook.Fill_of_le b f order0 hf (not_lt.1 hlt)]
        rfl

/-- Witness for C3: the good ack of the scenario's GFD entry creates the liquidity of AAA
with value 100. -/
theorem Ack_liquidity_witness :
    bookPending.pending_orders.find (ack500 1).client_id = some (entryAAA 100 2) ∧
    (ack500 1).order_status = OrderStatus.GOOD ∧
    bookPending.resting_orders.find (ack500 1).order_id = none ∧
    (entryAAA 100 2).time_in_force = TimeInForce.TIF_GFD ∧
    (bookPending.Ack (ack500 1)).book.liquidity_per_trader.find tagAAA = some 100 :=
  ⟨by decide, by decide, by decide, by decide,
    ((Ack_liquidity bookPending (ack500 1) (entryAAA 100 2) (by decide) (by decide)
      (by decide)).1 (by decide)).2.1 (by decide)⟩

/-- Counterexample to C3 as stated: with the liquidity of AAA at `2^64 - 1`, the good ack
of the GFD entry of quantity 100 leaves it at 99, not at the old value plus 100. -/
theorem Ack_liquidity_wraps :
    bookLiquidityMax.WF ∧
    bookLiquidityMax.pending_orders.find (ack500 1).client_id = some (entryAAA 100 2) ∧
    bookLiquidityMax.resting_orders.find (ack500 1).order_id = none ∧
    bookLiquidityMax.liquidity_per_trader.find tagAAA = some (2 ^ 64 - 1) ∧
    (bookLiquidityMax.Ack (ack500 1)).violation = none ∧
    (bookLiquidityMax.Ack (ack500 1)).book.liquidity_per_trader.find tagAAA = some 99 ∧
    (bookLiquidityMax.Ack (ack500 1)).book.liquidity_per_trader.find tagAAA ≠
      some (2 ^ 64 - 1 + (entryAAA 100 2).qty) := by
  decide

/-- C4: for a pending client id, `OrderBook::Ack` with status reject signals nothing,
removes the client id from the pending map (all other client ids keep their pending
order), and leaves the resting map with every remaining quantity, the per-instrument
volume, the liquidity and activity accumulators and the association sets unchanged. -/
theorem Ack_reject_frame (b : OrderBook) (ack : OrderAck) (order : OrderEntry) (hwf : b.WF)
    (h : b.pending_orders.find ack.client_id = some order)
    (hs : ack.order_status = OrderStatus.REJECT) :
    (b.Ack ack).violation = none ∧
    (b.Ack ack).book.pending_orders.find ack.client_id = none ∧
    (∀ c, c ≠ ack.client_id →
      (b.Ack ack).book.pending_orders.find c = b.pending_orders.find c) ∧
    (b.Ack ack).book.resting_orders = b.resting_orders ∧
    (b.Ack ack).book.vol_per_instrument = b.vol_per_instrument ∧
    (b.Ack ack).book.liquidity_per_trader = b.liquidity_per_trader ∧
    (b.Ack ack).book.vol_per_trader = b.vol_per_trader ∧
    (b.Ack ack).book.client_to_traders = b.client_to_traders ∧
    (b.Ack ack).book.trader_to_clients = b.trader_to_clients := by
  rw [OrderBook.Ack_reject b ack order h hs]
  refine ⟨rfl, StdMap.find_erase_self _ _ hwf.1, ?_, rfl, rfl, rfl, rfl, rfl, rfl⟩
  intro c hc
  exact StdMap.find_erase_of_ne _ _ _ hc

/-- Witness for C4: rejecting the scenario entry empties the pending map and touches
nothing else. -/
theorem Ack_reject_frame_witness :
    bookPending.WF ∧
    bookPending.pending_orders.find (ack500 2).client_id = some (entryAAA 100 2) ∧
    (ack500 2).order_status = OrderStatus.REJECT ∧
    (bookPending.Ack (ack500 2)).violation = none ∧
    (bookPending.Ack (ack500 2)).book.pending_orders.find 1 = none ∧
    (bookPending.Ack (ack500 2)).book.liquidity_per_trader = bookPending.liquidity_per_trader :=
  ⟨by decide, by decide, by decide,
    (Ack_reject_frame bookPending (ack500 2) (entryAAA 100 2) (by decide) (by decide)
      (by decide)).1,
    (Ack_reject_frame bookPending (ack500 2) (entryAAA 100 2) (by decide) (by decide)
      (by decide)).2.1,
    (Ack_reject_frame bookPending (ack500 2) (entryAAA 100 2) (by decide) (by decide)
      (by decide)).2.2.2.2.2.1⟩

/-- C5 as the code has it: `OrderBook::Fill` signals UnknownRestingOrder exactly when the
order id is not resting (the book is then unchanged) and OverFill exactly when the order
is resting with less than the fill quantity remaining.  Otherwise it signals nothing, the
remaining quantity drops by the fill quantity, the order leaves the resting map exactly
when that reaches 0, other orders are untouched, and the volume of the order's instrument
becomes the old volume plus the fill quantity modulo `2^64` (the fill quantity itself
for a new entry), which is the exact sum whenever that is below `2^64`; other instruments
keep their volume. -/
theorem Fill_outcome (b : OrderBook) (fill_msg : FillMsg) (hwf : b.WF) :
    ((b.Fill fill_msg).violation = some Violation.UnknownRestingOrder ↔
      b.resting_orders.find fill_msg.fill.order_id = none) ∧
    (b.resting_orders.find fill_msg.fill.order_id = none → (b.Fill fill_msg).book = b) ∧
    ((b.Fill fill_msg).violation = some Violation.OverFill ↔
      ∃ order0, b.resting_orders.find fill_msg.fill.order_id = some order0 ∧
        order0.qty < fill_msg.fill.fill_qty) ∧
    (∀ order0, b.resting_orders.find fill_msg.fill.order_id = some order0 →
      fill_msg.fill.fill_qty ≤ order0.qty →
      (b.Fill fill_msg).violation = none ∧
      (b.Fill fill_msg).book.resting_orders.find fill_msg.fill.order_id =
        (if order0.qty - fill_msg.fill.fill_qty = 0 then none
         else some { order0 with qty := order0.qty - fill_msg.fill.fill_qty }) ∧
      (∀ o, o ≠ fill_msg.fill.order_id →
        (b.Fill fill_msg).book.resting_orders.find o = b.resting_orders.find o) ∧
      (b.Fill fill_msg).book.vol_per_instrument.find order0.instrument =
        some (match b.vol_per_instrument.find order0.instrument with
          | some v => (v + fill_msg.fill.fill_qty) % 2 ^ 64
          | none => fill_msg.fill.fill_qty) ∧
      ((b.vol_per_instrument.find order0.instrument).getD 0 + fill_msg.fill.fill_qty < 2 ^ 64 →
        (b.Fill fill_msg).book.vol_per_instrument.find order0.instrument =
          some ((b.vol_per_instrument.find order0.instrument).getD 0 +
            fill_msg.fill.fill_qty)) ∧
      (∀ i, i ≠ order0.instrument →
        (b.Fill fill_msg).book.vol_per_instrument.find i = b.vol_per_instrument.find i)) := by
  refine ⟨?_, ?_, ?_, ?_⟩
  · cases h : b.resting_orders.find fill_msg.fill.order_id with
    | none => simp [OrderBook.Fill_of_find_none b fill_msg h]
    | some order0 =>
      by_cases hlt : order0.qty < fill_msg.fill.fill_qty
      · simp [OrderBook.Fill_of_lt b fill_msg order0 h hlt]
      · simp [OrderBook.Fill_of_le b fill_msg order0 h (not_lt.1 hlt)]
  · intro h
    rw [OrderBook.Fill_of_find_none b fill_msg h]
  · cases h : b.resting_orders.find fill_msg.fill.order_id with
    | none => simp [OrderBook.Fill_of_find_none b fill_msg h]
    | some order0 =>
      by_cases hlt : order0.qty < fill_msg.fill.fill_qty
      · simp [OrderBook.Fill_of_lt b fill_msg order0 h hlt, hlt]
      · simp [OrderBook.Fill_of_le b fill_msg order0 h (not_lt.1 hlt), hlt]
  · intro order0 h hle
    rw [OrderBook.Fill_of_le b fill_msg order0 h hle]
    refine ⟨rfl, ?_, ?_, ?_, ?_, ?_⟩
    · by_cases hq : order0.qty - fill_msg.fill.fill_qty = 0
      · simp only [OrderBook.fillResult, hq, if_true]
        exact StdMap.find_erase_self _ _ (StdMap.WF_assign _ _ _ hwf.2.1)
      · simp only [OrderBook.fillResult, hq, if_false, StdMap.find_assign_self, h,
          Option.map_some']
    · intro o ho
      by_cases hq : order0.qty - fill_msg.fill.fill_qty = 0
      · simp only [OrderBook.fillResult, hq, if_true]
        rw [StdMap.find_erase_of_ne _ _ _ ho, StdMap.find_assign_of_ne _ _ _ _ ho]
      · simp only [OrderBook.fillResult, hq, if_false]
        rw [StdMap.find_assign_of_ne _ _ _ _ ho]
    · simp only [OrderBook.fillResult, OrderBook.find_addVolume_self]
    · intro hlt
      simp only [OrderBook.fillResult, OrderBook.find_addVolume_self]
      cases hv : b.vol_per_instrument.find order0.instrument with
      | none => simp
      | some v =>
        rw [hv] at hlt
        simp only [Option.getD_some] at hlt ⊢
        rw [Nat.mod_eq_of_lt hlt]
    · intro i hi
      exact OrderBook.find_addVolume_of_ne _ _ _ _ hi

/-- Witness for C5: the first fill of the scenario leaves order 500 resting with 60 and
creates the volume entry of ABC with 40. -/
theorem Fill_outcome_witness :
    bookResting.WF ∧
    bookResting.resting_orders.find (fill500 40 []).fill.order_id = some (entryAAA 100 2) ∧
    (fill500 40 []).fill.fill_qty ≤ (entryAAA 100 2).qty ∧
    (bookResting.Fill (fill500 40 [])).violation = none ∧
    (bookResting.Fill (fill500 40 [])).book.resting_orders.find 500 = some (entryAAA 60 2) ∧
    (bookResting.Fill (fill500 40 [])).book.vol_per_instrument.find instrABC = some 40 :=
  have h := (Fill_outcome bookResting (fill500 40 []) (by decide)).2.2.2 (entryAAA 100 2)
    (by decide) (by decide)
  ⟨by decide, by decide, by decide, h.1, h.2.1, h.2.2.2.2.1 (by decide)⟩

/-- Counterexample to C5 as stated: with the volume of ABC at `2^64 - 1`, a fill of 1
succeeds and leaves the volume of ABC at 0, not at the old volume plus the fill quantity. -/
theorem Fill_volume_wraps :
    bookVolumeMax.WF ∧
    bookVolumeMax.resting_orders.find 500 = some (entryAAA 100 2) ∧
    bookVolumeMax.vol_per_instrument.find instrABC = some (2 ^ 64 - 1) ∧
    (bookVolumeMax.Fill (fill500 1 [])).violation = none ∧
    (bookVolumeMax.Fill (fill500 1 [])).book.vol_per_instrument.find instrABC = some 0 ∧
    (bookVolumeMax.Fill (fill500 1 [])).book.vol_per_instrument.find instrABC ≠
      some (2 ^ 64 - 1 + (fill500 1 []).fill.fill_qty) := by
  decide

/-- C6: whenever `Add`, `Ack` or `Fill` signals a violation, the book it leaves is the
book it was given, in every component. -/
theorem violation_leaves_book (b : OrderBook) (v : Violation) :
    (∀ order, (b.Add order).violation = some v → (b.Add order).book = b) ∧
    (∀ ack, (b.Ack ack).violation = some v → (b.Ack ack).book = b) ∧
    (∀ fill_msg, (b.Fill fill_msg).violation = some v → (b.Fill fill_msg).book = b) := by
  refine ⟨?_, ?_, ?_⟩
  · intro order
    cases h : b.pending_orders.find order.client_id with
    | none => simp [OrderBook.Add_of_find_none b order h]
    | some prev => simp [OrderBook.Add_of_find_some b order prev h]
  · intro ack
    cases h : b.pending_orders.find ack.client_id with
    | none => simp [OrderBook.Ack_of_find_none b ack h]
    | some order =>
      by_cases hg : ack.order_status = OrderStatus.GOOD
      · cases hr : b.resting_orders.find ack.order_id with
        | none => simp [OrderBook.Ack_good_of_not_resting b ack order h hg hr]
        | some other => simp [OrderBook.Ack_good_of_resting b ack order other h hg hr]
      · by_cases hj : ack.order_status = OrderStatus.REJECT
        · simp [OrderBook.Ack_reject b ack order h hj]
        · simp [OrderBook.Ack_other_status b ack order h hg hj]
  · intro fill_msg
    cases h : b.resting_orders.find fill_msg.fill.order_id with
    | none => simp [OrderBook.Fill_of_find_none b fill_msg h]
    | some order0 =>
      by_cases hlt : order0.qty < fill_msg.fill.fill_qty
      · simp [OrderBook.Fill_of_lt b fill_msg order0 h hlt]
      · simp [OrderBook.Fill_of_le b fill_msg order0 h (not_lt.1 hlt)]

/-- Witness for C6: each of the five violations occurs, and leaves its book unchanged. -/
theorem violation_leaves_book_witness :
    ((bookPending.Add (entryAAA 5 1)).violation = some Violation.DuplicatePending ∧
      (bookPending.Add (entryAAA 5 1)).book = bookPending) ∧
    ((bookResting.Ack (ack500 1)).violation = some Violation.UnknownPendingOrder ∧
      (bookResting.Ack (ack500 1)).book = bookResting) ∧
    (((bookResting.Add (entryAAA 5 1)).book.Ack (ack500 1)).violation =
        some Violation.DuplicateResting ∧
      ((bookResting.Add (entryAAA 5 1)).book.Ack (ack500 1)).book =
        (bookResting.Add (entryAAA 5 1)).book) ∧
    ((bookPending.Fill (fill500 1 [])).violation = some Violation.UnknownRestingOrder ∧
      (bookPending.Fill (fill500 1 [])).book = bookPending) ∧
    ((bookResting.Fill (fill500 101 [])).violation = some Violation.OverFill ∧
      (bookResting.Fill (fill500 101 [])).book = bookResting) :=
  ⟨⟨by decide, (violation_leaves_book bookPending Violation.DuplicatePending).1 _ (by decide)⟩,
    ⟨by decide, (violation_leaves_book bookResting Violation.UnknownPendingOrder).2.1 _ (by decide)⟩,
    ⟨by decide, (violation_leaves_book (bookResting.Add (entryAAA 5 1)).book
        Violation.DuplicateResting).2.1 _ (by decide)⟩,
    ⟨by decide, (violation_leaves_book bookPending Violation.UnknownRestingOrder).2.2 _ (by decide)⟩,
    ⟨by decide, (violation_leaves_book bookResting Violation.OverFill).2.2 _ (by decide)⟩⟩

/-- C7: `OrderBook::Ack` signals UnknownPendingOrder exactly when the ack's client id has
no pending order; for a pending client id and status good it signals DuplicateResting
exactly when the ack's order id is already resting; and when status is good and neither
applies, the client id is no longer pending and the entry, with its quantity, is the
resting order stored under the ack's order id. -/
theorem Ack_violations_and_promotion (b : OrderBook) (ack : OrderAck) (hwf : b.WF) :
    ((b.Ack ack).violation = some Violation.UnknownPendingOrder ↔
      b.pending_orders.find ack.client_id = none) ∧
    (∀ order, b.pending_orders.find ack.client_id = some order →
      ack.order_status = OrderStatus.GOOD →
      (((b.Ack ack).violation = some Violation.DuplicateResting ↔
          (b.resting_orders.find ack.order_id).isSome) ∧
       (b.resting_orders.find ack.order_id = none →
          (b.Ack ack).violation = none ∧
          (b.Ack ack).book.pending_orders.find ack.client_id = none ∧
          (b.Ack ack).book.resting_orders.find ack.order_id = some order ∧
          ((b.Ack ack).book.resting_orders.find ack.order_id).map OrderEntry.qty =
            some order.qty))) := by
  refine ⟨?_, ?_⟩
  · cases h : b.pending_orders.find ack.client_id with
    | none => simp [OrderBook.Ack_of_find_none b ack h]
    | some order =>
      by_cases hg : ack.order_status = OrderStatus.GOOD
      · cases hr : b.resting_orders.find ack.order_id with
        | none => simp [OrderBook.Ack_good_of_not_resting b ack order h hg hr]
        | some other => simp [OrderBook.Ack_good_of_resting b ack order other h hg hr]
      · by_cases hj : ack.order_status = OrderStatus.REJECT
        · simp [OrderBook.Ack_reject b ack order h hj]
        · simp [OrderBook.Ack_other_status b ack order h hg hj]
  · intro order h hg
    refine ⟨?_, ?_⟩
    · cases hr : b.resting_orders.find ack.order_id with
      | none => simp [OrderBook.Ack_good_of_not_resting b ack order h hg hr]
      | some other => simp [OrderBook.Ack_good_of_resting b ack order other h hg hr]
    · intro hr
      rw [OrderBook.Ack_good_of_not_resting b ack order h hg hr]
      refine ⟨rfl, StdMap.find_erase_self _ _ hwf.1, ?_, ?_⟩
      · simp [StdMap.find_insert_self, hr]
      · simp [StdMap.find_insert_self, hr]

/-- Witness for C7: the good ack of the scenario promotes the pending entry to order 500. -/
theorem Ack_violations_and_promotion_witness :
    bookPending.WF ∧
    bookPending.pending_orders.find (ack500 1).client_id = some (entryAAA 100 2) ∧
    (ack500 1).order_status = OrderStatus.GOOD ∧
    bookPending.resting_orders.find (ack500 1).order_id = none ∧
    (bookPending.Ack (ack500 1)).book.pending_orders.find 1 = none ∧
    (bookPending.Ack (ack500 1)).book.resting_orders.find 500 = some (entryAAA 100 2) :=
  ⟨by decide, by decide, by decide, by decide,
    (((Ack_violations_and_promotion bookPending (ack500 1) (by decide)).2 (entryAAA 100 2)
      (by decide) (by decide)).2 (by decide)).2.1,
    (((Ack_violations_and_promotion bookPending (ack500 1) (by decide)).2 (entryAAA 100 2)
      (by decide) (by decide)).2 (by decide)).2.2.1⟩

/-- C8: `OrderBook::Add` signals DuplicatePending exactly when the entry's client id
already has a pending order, and then the pending map (so the order pending before) is
kept as it was; otherwise it succeeds, the pending map holds this entry under its client
id, and every other client id maps to what it mapped to before. -/
theorem Add_duplicate_pending (b : OrderBook) (order : OrderEntry) :
    ((b.Add order).violation = some Violation.DuplicatePending ↔
      (b.pending_orders.find order.client_id).isSome) ∧
    (∀ prev, b.pending_orders.find order.client_id = some prev →
      (b.Add order).book.pending_orders.find order.client_id = some prev ∧
      (b.Add order).book.pending_orders = b.pending_orders) ∧
    (b.pending_orders.find order.client_id = none →
      (b.Add order).violation = none ∧
      (b.Add order).book.pending_orders.find order.client_id = some order ∧
      ∀ c, c ≠ order.client_id →
        (b.Add order).book.pending_orders.find c = b.pending_orders.find c) := by
  refine ⟨?_, ?_, ?_⟩
  · cases h : b.pending_orders.find order.client_id with
    | none => simp [OrderBook.Add_of_find_none b order h]
    | some prev => simp [OrderBook.Add_of_find_some b order prev h]
  · intro prev h
    rw [OrderBook.Add_of_find_some b order prev h]
    exact ⟨h, rfl⟩
  · intro h
    rw [OrderBook.Add_of_find_none b order h]
    refine ⟨rfl, ?_, ?_⟩
    · simp [StdMap.find_insert_self, h]
    · intro c hc
      exact StdMap.find_insert_of_ne _ _ _ _ hc

/-- Witness for C8: a second entry for the pending client 1 is refused and the first
stays; on the empty book the entry becomes pending. -/
theorem Add_duplicate_pending_witness :
    (bookPending.pending_orders.find (entryAAA 5 1).client_id = some (entryAAA 100 2) ∧
      (bookPending.Add (entryAAA 5 1)).violation = some Violation.DuplicatePending ∧
      (bookPending.Add (entryAAA 5 1)).book.pending_orders.find 1 = some (entryAAA 100 2)) ∧
    (OrderBook.empty.pending_orders.find (entryAAA 5 1).client_id = none ∧
      (OrderBook.empty.Add (entryAAA 5 1)).book.pending_orders.find 1 = some (entryAAA 5 1)) :=
  ⟨⟨by decide, (Add_duplicate_pending bookPending (entryAAA 5 1)).1.2 (by decide),
      ((Add_duplicate_pending bookPending (entryAAA 5 1)).2.1 _ (by decide)).1⟩,
    ⟨by decide, ((Add_duplicate_pending OrderBook.empty (entryAAA 5 1)).2.2 (by decide)).2.1⟩⟩

/-- C9 as the code has it: on a good stream `GetMsg` throws `EndOfDataException` exactly
when the stream does not hold a complete frame, that is when no bytes remain and also
when it ends inside the header or inside the declared payload; on such a stream it never
throws `MalformedInputException`, which needs a complete frame. -/
theorem GetMsg_end_of_data (past : Nat) (input : IStream) (he : input.eofbit = false)
    (hf : input.failbit = false) :
    ((Producer.GetMsg past input).1 = GetMsgResult.EndOfDataException ↔
      (input.data.length < 22 ∨ input.data.length < 22 + frameMsgLen input.data)) ∧
    (input.data = [] → (Producer.GetMsg past input).1 = GetMsgResult.EndOfDataException) ∧
    ((input.data.length < 22 ∨ input.data.length < 22 + frameMsgLen input.data) →
      (Producer.GetMsg past input).1 ≠ GetMsgResult.MalformedInputException) ∧
    ((Producer.GetMsg past input).1 = GetMsgResult.MalformedInputException →
      22 + frameMsgLen input.data ≤ input.data.length) := by
  have hcases : input.data.length < 22 ∨
      (22 ≤ input.data.length ∧ input.data.length < 22 + frameMsgLen input.data) ∨
      22 + frameMsgLen input.data ≤ input.data.length := by omega
  rcases hcases with h | ⟨h1, h2⟩ | h
  · rw [GetMsg_short_header past input he hf h]
    refine ⟨by simp [h], fun _ => rfl, fun _ => by simp, fun hm => by simp at hm⟩
  · rw [GetMsg_short_payload past input he hf h1 h2]
    refine ⟨by simp [h2], fun _ => rfl, fun _ => by simp, fun hm => by simp at hm⟩
  · rw [GetMsg_complete past input he hf h]
    have hne := dispatch_ne_end past (input.data.take (22 + frameMsgLen input.data))
    refine ⟨?_, ?_, ?_, fun _ => h⟩
    · constructor
      · intro hd; exact absurd hd hne
      · intro hd; omega
    · intro hd
      rw [hd] at h
      simp at h
    · intro hd; omega

/-- Witness for C9: a stream of 40 bytes of a 71-byte frame ends in `EndOfDataException`. -/
theorem GetMsg_end_of_data_witness :
    (IStream.open (fillFrame3.take 40)).eofbit = false ∧
    (IStream.open (fillFrame3.take 40)).failbit = false ∧
    (IStream.open (fillFrame3.take 40)).data.length <
      22 + frameMsgLen (IStream.open (fillFrame3.take 40)).data ∧
    (Producer.GetMsg 0 (IStream.open (fillFrame3.take 40))).1 =
      GetMsgResult.EndOfDataException :=
  ⟨rfl, rfl, by decide,
    (GetMsg_end_of_data 0 (IStream.open (fillFrame3.take 40)) rfl rfl).1.2 (Or.inr (by decide))⟩

/-- Counterexample to C9 as stated: a stream holding the single byte `0x53` (one of the 22
header bytes) has bytes remaining at the call, yet `GetMsg` throws `EndOfDataException`
and not `MalformedInputException`; so does a stream holding 40 bytes of a 71-byte frame. -/
theorem GetMsg_truncated_is_end_of_data :
    (IStream.open [0x53]).data ≠ [] ∧
    (∀ past, (Producer.GetMsg past (IStream.open [0x53])).1 =
      GetMsgResult.EndOfDataException) ∧
    (∀ past, (Producer.GetMsg past (IStream.open [0x53])).1 ≠
      GetMsgResult.MalformedInputException) ∧
    (∀ past, (Producer.GetMsg past (IStream.open (fillFrame3.take 40))).1 =
      GetMsgResult.EndOfDataException) ∧
    (∀ past, (Producer.GetMsg past (IStream.open (fillFrame3.take 40))).1 ≠
      GetMsgResult.MalformedInputException) := by
  have h1 : ∀ past, Producer.GetMsg past (IStream.open [0x53]) =
      (GetMsgResult.EndOfDataException, ⟨[], true, true⟩) :=
    fun past => GetMsg_short_header past (IStream.open [0x53]) rfl rfl (by decide)
  have h2 : ∀ past, Producer.GetMsg past (IStream.open (fillFrame3.take 40)) =
      (GetMsgResult.EndOfDataException, ⟨[], true, true⟩) :=
    fun past => GetMsg_short_payload past (IStream.open (fillFrame3.take 40)) rfl rfl
      (by decide) (by decide)
  refine ⟨by decide, fun past => ?_, fun past => ?_, fun past => ?_, fun past => ?_⟩
  · rw [h1 past]
  · rw [h1 past]; exact fun hc => GetMsgResult.noConfusion hc
  · rw [h2 past]
  · rw [h2 past]; exact fun hc => GetMsgResult.noConfusion hc

/-- C10 at the failing input: the 71-byte Fill frame with count byte 3 and the records
(1, BBB, 10), (2, CCC, 20), (3, DDD, 30) at offsets 39, 47, 55.  `GetMsg` returns a message
with `num_contras = 3` whose counterparty pointer is at offset 61, not 39: record 0 read
through it is made of bytes of the third record and of the terminator, and records 1 and
2 lie past the end of the frame. -/
theorem GetMsg_fill_contra_offset :
    (∀ past, (Producer.GetMsg past (IStream.open fillFrame3)).1 =
      GetMsgResult.returned ⟨fillFrame3, 71, 3, some 61, 3⟩) ∧
    (bytesAt fillFrame3 38 1).map leNat = some 3 ∧
    (bytesAt fillFrame3 (39 + 8 * 0) 8).map decodeCounterParty = some ⟨1, [66, 66, 66], 10⟩ ∧
    (bytesAt fillFrame3 (39 + 8 * 1) 8).map decodeCounterParty = some ⟨2, [67, 67, 67], 20⟩ ∧
    (bytesAt fillFrame3 (39 + 8 * 2) 8).map decodeCounterParty = some ⟨3, [68, 68, 68], 30⟩ ∧
    Msg.contraAt ⟨fillFrame3, 71, 3, some 61, 3⟩ 0 = some ⟨0, [0, 68, 66], 1111769668⟩ ∧
    Msg.contraAt ⟨fillFrame3, 71, 3, some 61, 3⟩ 1 = none ∧
    Msg.contraAt ⟨fillFrame3, 71, 3, some 61, 3⟩ 2 = none := by
  refine ⟨fun past => ?_, by decide, by decide, by decide, by decide, by decide, by decide,
    by decide⟩
  rw [GetMsg_fill_frame past (IStream.open fillFrame3) rfl rfl (by decide) (by decide)
    (by decide)]
  decide

/-- C11: on a good stream that starts with a complete frame whose message-type byte is 1,
2 or 3, `GetMsg` returns a message whose type is that byte and whose retained bytes
(`msg`, of length `len`) are exactly the first `22 + msg_len` bytes of the stream, so
writing them back out reproduces the frame; it leaves the stream good and positioned at
the byte after the frame, where the next call starts.  This holds for Entry, Ack and
Fill alike, whatever the declared length and whatever byte lies behind a short buffer. -/
theorem GetMsg_returns_frame (past : Nat) (input : IStream) (he : input.eofbit = false)
    (hf : input.failbit = false)
    (hpay : 22 + frameMsgLen input.data ≤ input.data.length)
    (hty : frameMsgType input.data = MsgType.ENTRY ∨ frameMsgType input.data = MsgType.ACK ∨
      frameMsgType input.data = MsgType.FILL) :
    (∃ m, (Producer.GetMsg past input).1 = GetMsgResult.returned m ∧
      m.msg_type = frameMsgType input.data ∧
      m.msg = input.data.take (22 + frameMsgLen input.data) ∧
      m.len = 22 + frameMsgLen input.data) ∧
    (Producer.GetMsg past input).2 =
      ⟨input.data.drop (22 + frameMsgLen input.data), false, false⟩ ∧
    ∀ next, Producer.GetMsg next (Producer.GetMsg past input).2 =
      Producer.GetMsg next (IStream.open (input.data.drop (22 + frameMsgLen input.data))) := by
  have hl : (input.data.take (22 + frameMsgLen input.data)).length =
      22 + frameMsgLen input.data := by
    rw [List.length_take]; exact Nat.min_eq_left hpay
  have hT := frameMsgType_take input.data (22 + frameMsgLen input.data) (by omega)
  rw [GetMsg_complete past input he hf hpay]
  refine ⟨?_, rfl, fun _ => rfl⟩
  rcases hty with h | h | h
  · rw [dispatch_entry_ack past _ (Or.inl (hT.trans h)), hl, hT]
    exact ⟨_, rfl, rfl, rfl, rfl⟩
  · rw [dispatch_entry_ack past _ (Or.inr (hT.trans h)), hl, hT]
    exact ⟨_, rfl, rfl, rfl, rfl⟩
  · have hT' : ((input.data.take (22 + frameMsgLen input.data)).drop 2).headD 0 =
        MsgType.FILL := hT.trans h
    by_cases hlen : 17 ≤ frameMsgLen input.data
    · rw [dispatch_fill past _ hT' (by rw [hl]; omega), hl]
      exact ⟨_, rfl, h.symm, rfl, rfl⟩
    · rw [dispatch_fill_short past _ hT' (by rw [hl]; omega), hl]
      exact ⟨_, rfl, h.symm, rfl, rfl⟩

/-- Witness for C11: an Ack frame followed by two more bytes is returned whole and the
stream is left at those two bytes; a Fill frame that is a header alone (declared length
0) is returned whole as well, with type 3 and its 22 bytes. -/
theorem GetMsg_returns_frame_witness :
    ((IStream.open (ackFrame ++ [7, 7])).eofbit = false ∧
      (IStream.open (ackFrame ++ [7, 7])).failbit = false ∧
      22 + frameMsgLen (ackFrame ++ [7, 7]) ≤ (ackFrame ++ [7, 7]).length ∧
      frameMsgType (ackFrame ++ [7, 7]) = MsgType.ACK ∧
      (Producer.GetMsg 0 (IStream.open (ackFrame ++ [7, 7]))).2 =
        ⟨(ackFrame ++ [7, 7]).drop (22 + frameMsgLen (ackFrame ++ [7, 7])), false, false⟩ ∧
      (ackFrame ++ [7, 7]).drop (22 + frameMsgLen (ackFrame ++ [7, 7])) = [7, 7]) ∧
    (22 + frameMsgLen fillHeaderOnly ≤ fillHeaderOnly.length ∧
      frameMsgType fillHeaderOnly = MsgType.FILL ∧
      fillHeaderOnly.take (22 + frameMsgLen fillHeaderOnly) = fillHeaderOnly ∧
      ∃ m, (Producer.GetMsg 5 (IStream.open fillHeaderOnly)).1 = GetMsgResult.returned m ∧
        m.msg_type = frameMsgType fillHeaderOnly ∧
        m.msg = fillHeaderOnly.take (22 + frameMsgLen fillHeaderOnly) ∧
        m.len = 22 + frameMsgLen fillHeaderOnly) :=
  ⟨⟨rfl, rfl, by decide, by decide,
      (GetMsg_returns_frame 0 (IStream.open (ackFrame ++ [7, 7])) rfl rfl (by decide)
        (Or.inr (Or.inl (by decide)))).2.1,
      by decide⟩,
    ⟨by decide, by decide, by decide,
      (GetMsg_returns_frame 5 (IStream.open fillHeaderOnly) rfl rfl (by decide)
        (Or.inr (Or.inr (by decide)))).1⟩⟩

/-- C12: on a good stream that starts with a complete frame (22-byte header followed by
its declared `msg_len` payload bytes) whose message-type byte is not 1, 2 or 3, `GetMsg`
throws `MalformedInputException` and returns no message. -/
theorem GetMsg_unknown_type (past : Nat) (input : IStream) (he : input.eofbit = false)
    (hf : input.failbit = false)
    (hpay : 22 + frameMsgLen input.data ≤ input.data.length)
    (h1 : frameMsgType input.data ≠ MsgType.ENTRY) (h2 : frameMsgType input.data ≠ MsgType.ACK)
    (h3 : frameMsgType input.data ≠ MsgType.FILL) :
    (Producer.GetMsg past input).1 = GetMsgResult.MalformedInputException ∧
    ∀ m, (Producer.GetMsg past input).1 ≠ GetMsgResult.returned m := by
  have hT := frameMsgType_take input.data (22 + frameMsgLen input.data) (by omega)
  have h : (Producer.GetMsg past input).1 = GetMsgResult.MalformedInputException := by
    rw [GetMsg_complete past input he hf hpay]
    exact dispatch_unknown past _ (by rw [hT]; exact h1) (by rw [hT]; exact h2) (by rw [hT]; exact h3)
  refine ⟨h, fun m => ?_⟩
  rw [h]
  exact fun hc => GetMsgResult.noConfusion hc

/-- Witness for C12: a complete frame of message type 9. -/
theorem GetMsg_unknown_type_witness :
    (IStream.open unknownFrame).eofbit = false ∧
    (IStream.open unknownFrame).failbit = false ∧
    22 + frameMsgLen unknownFrame ≤ unknownFrame.length ∧
    frameMsgType unknownFrame = 9 ∧
    (Producer.GetMsg 0 (IStream.open unknownFrame)).1 = GetMsgResult.MalformedInputException :=
  ⟨rfl, rfl, by decide, by decide,
    (GetMsg_unknown_type 0 (IStream.open unknownFrame) rfl rfl (by decide) (by decide)
      (by decide) (by decide)).1⟩

/-- C13: when at least one trader of the activity map has a value greater than 0,
`GetMostActiveTrader` returns a tag of the map whose value is the maximum value in the
map, and among the tags carrying that maximum the lexicographically smallest; the book
is unchanged.  (The map is a `std::map` whose keys are 3-byte trader tags.) -/
theorem GetMostActiveTrader_max (b : OrderBook) (hwf : b.WF) (htag : TagKeys b.vol_per_trader)
    (hpos : ∃ t v, b.vol_per_trader.find t = some v ∧ 0 < v) :
    ∃ t v, b.GetMostActiveTrader.trader = some t ∧ b.vol_per_trader.find t = some v ∧
      (∀ t' v', b.vol_per_trader.find t' = some v' → v' ≤ v) ∧
      (∀ t', b.vol_per_trader.find t' = some v → t ≤ t') ∧
      b.GetMostActiveTrader.book = b := by
  obtain ⟨t0, v0, hf0, hv0⟩ := hpos
  obtain ⟨t, v, hs, hne, hf, _, hmax, hmin⟩ :=
    maxScan_of_pos b.vol_per_trader hwf.2.2.2.2.1 htag ⟨(t0, v0), lookupKV_mem _ _ _ hf0, hv0⟩
  refine ⟨t, v, ?_, hf, hmax, hmin, ?_⟩
  · simp [OrderBook.GetMostActiveTrader, hs, hne]
  · simp only [OrderBook.GetMostActiveTrader]
    split <;> rfl

/-- Witness for C13: AAA and BBB both have activity 10 and CCC has 5 (AAA was credited
last); the query returns AAA. -/
theorem GetMostActiveTrader_max_witness :
    (OrderBook.empty.run tieEvents).book.WF ∧
    TagKeys (OrderBook.empty.run tieEvents).book.vol_per_trader ∧
    (OrderBook.empty.run tieEvents).book.vol_per_trader.find tagBBB = some 10 ∧
    (OrderBook.empty.run tieEvents).book.vol_per_trader.find tagAAA = some 10 ∧
    (OrderBook.empty.run tieEvents).book.GetMostActiveTrader.trader = some tagAAA ∧
    ∃ t v, (OrderBook.empty.run tieEvents).book.GetMostActiveTrader.trader = some t ∧
      (OrderBook.empty.run tieEvents).book.vol_per_trader.find t = some v ∧
      (∀ t' v', (OrderBook.empty.run tieEvents).book.vol_per_trader.find t' = some v' →
        v' ≤ v) ∧
      (∀ t', (OrderBook.empty.run tieEvents).book.vol_per_trader.find t' = some v → t ≤ t') ∧
      (OrderBook.empty.run tieEvents).book.GetMostActiveTrader.book =
        (OrderBook.empty.run tieEvents).book :=
  ⟨by decide, by decide, by decide, by decide, by decide,
    GetMostActiveTrader_max (OrderBook.empty.run tieEvents).book (by decide) (by decide)
      ⟨tagBBB, 10, by decide, by decide⟩⟩

/-- C14 as the code has it: `GetMostActiveTrader` fails (its assertion
`!trader.empty()` does not hold) exactly when no value in the activity map is greater
than 0, which is the case for the empty map and also for a non-empty map whose values are
all 0; whenever it returns a tag, that tag is a key of the map, and it does return one
when some value is greater than 0. -/
theorem GetMostActiveTrader_no_data (b : OrderBook) (htag : TagKeys b.vol_per_trader) :
    (b.GetMostActiveTrader.trader = none ↔ ∀ p ∈ b.vol_per_trader.entries, p.2 = 0) ∧
    (b.vol_per_trader.entries = [] → b.GetMostActiveTrader.trader = none) ∧
    (∀ t, b.GetMostActiveTrader.trader = some t → (b.vol_per_trader.find t).isSome) ∧
    ((∃ p ∈ b.vol_per_trader.entries, 0 < p.2) →
      ∃ t, b.GetMostActiveTrader.trader = some t ∧ (b.vol_per_trader.find t).isSome) := by
  obtain ⟨hiff, hkey⟩ := maxScan_empty_iff b.vol_per_trader htag
  have h1 : b.GetMostActiveTrader.trader = none ↔
      (maxScan b.vol_per_trader.entries [] 0).1 = [] := by
    simp only [OrderBook.GetMostActiveTrader]
    split <;> simp_all
  have h2 : ∀ t, b.GetMostActiveTrader.trader = some t →
      (b.vol_per_trader.find t).isSome := by
    intro t ht
    simp only [OrderBook.GetMostActiveTrader] at ht
    split at ht
    · simp at ht
    · rename_i hne
      simp only [Option.some.injEq] at ht
      subst ht
      exact hkey hne
  refine ⟨h1.trans hiff, ?_, h2, ?_⟩
  · intro he
    rw [h1.trans hiff, he]
    intro p hp
    cases hp
  · intro hpos
    cases ht : b.GetMostActiveTrader.trader with
    | none =>
      obtain ⟨p, hp, hp0⟩ := hpos
      have := (h1.trans hiff).1 ht p hp
      omega
    | some t => exact ⟨t, rfl, h2 t ht⟩

/-- Witness for C14: in the scenario's final book only AAA has activity (140) and the
query returns AAA, a key of the map. -/
theorem GetMostActiveTrader_no_data_witness :
    TagKeys (OrderBook.empty.run scenarioEvents).book.vol_per_trader ∧
    (∃ p ∈ (OrderBook.empty.run scenarioEvents).book.vol_per_trader.entries, 0 < p.2) ∧
    (OrderBook.empty.run scenarioEvents).book.GetMostActiveTrader.trader = some tagAAA ∧
    ∃ t, (OrderBook.empty.run scenarioEvents).book.GetMostActiveTrader.trader = some t ∧
      ((OrderBook.empty.run scenarioEvents).book.vol_per_trader.find t).isSome :=
  ⟨by decide, ⟨(tagAAA, 140), by decide, by decide⟩, by decide,
    (GetMostActiveTrader_no_data (OrderBook.empty.run scenarioEvents).book (by decide)).2.2.2
      ⟨(tagAAA, 140), by decide, by decide⟩⟩

/-- Counterexample to C14 as stated: after entry, good ack and a fill of quantity 0
without counterparties (no violation), the activity map is not empty (AAA has value 0),
yet `GetMostActiveTrader` returns no tag. -/
theorem GetMostActiveTrader_zero_map :
    (OrderBook.empty.run zeroFillEvents).violation = none ∧
    (OrderBook.empty.run zeroFillEvents).book.vol_per_trader.entries = [(tagAAA, 0)] ∧
    (OrderBook.empty.run zeroFillEvents).book.vol_per_trader.entries ≠ [] ∧
    (OrderBook.empty.run zeroFillEvents).book.GetMostActiveTrader.trader = none := by
  decide

/-- C15 as the code has it: when some trader of the liquidity map has a value greater
than 0, `GetMostLiquidTrader` returns a key of the map whose value is maximal, the
lexicographically smallest such key on a tie; it fails exactly when no value in the map
is greater than 0 (the empty map, and also a non-empty map whose values are all 0); a
returned tag is always a key of the map; the book is unchanged. -/
theorem GetMostLiquidTrader_contract (b : OrderBook) (hwf : b.WF)
    (htag : TagKeys b.liquidity_per_trader) :
    ((∃ t v, b.liquidity_per_trader.find t = some v ∧ 0 < v) →
      ∃ t v, b.GetMostLiquidTrader.trader = some t ∧ b.liquidity_per_trader.find t = some v ∧
        (∀ t' v', b.liquidity_per_trader.find t' = some v' → v' ≤ v) ∧
        (∀ t', b.liquidity_per_trader.find t' = some v → t ≤ t')) ∧
    (b.GetMostLiquidTrader.trader = none ↔ ∀ p ∈ b.liquidity_per_trader.entries, p.2 = 0) ∧
    (b.liquidity_per_trader.entries = [] → b.GetMostLiquidTrader.trader = none) ∧
    (∀ t, b.GetMostLiquidTrader.trader = some t → (b.liquidity_per_trader.find t).isSome) ∧
    b.GetMostLiquidTrader.book = b := by
  obtain ⟨hiff, hkey⟩ := maxScan_empty_iff b.liquidity_per_trader htag
  have h1 : b.GetMostLiquidTrader.trader = none ↔
      (maxScan b.liquidity_per_trader.entries [] 0).1 = [] := by
    simp only [OrderBook.GetMostLiquidTrader]
    split <;> simp_all
  refine ⟨?_, h1.trans hiff, ?_, ?_, ?_⟩
  · rintro ⟨t0, v0, hf0, hv0⟩
    obtain ⟨t, v, hs, hne, hf, _, hmax, hmin⟩ :=
      maxScan_of_pos b.liquidity_per_trader hwf.2.2.2.1 htag
        ⟨(t0, v0), lookupKV_mem _ _ _ hf0, hv0⟩
    refine ⟨t, v, ?_, hf, hmax, hmin⟩
    simp [OrderBook.GetMostLiquidTrader, hs, hne]
  · intro he
    rw [h1.trans hiff, he]
    intro p hp
    cases hp
  · intro t ht
    simp only [OrderBook.GetMostLiquidTrader] at ht
    split at ht
    · simp at ht
    · rename_i hne
      simp only [Option.some.injEq] at ht
      subst ht
      exact hkey hne
  · simp only [OrderBook.GetMostLiquidTrader]
    split <;> rfl

/-- Witness for C15: three traders entered GFD orders, BBB and AAA for 10 each and CCC for
5, AAA last; the maximum 10 is shared by AAA and BBB and the query returns AAA, the
smaller of the two tags. -/
theorem GetMostLiquidTrader_contract_witness :
    (OrderBook.empty.run liquidTieEvents).book.WF ∧
    TagKeys (OrderBook.empty.run liquidTieEvents).book.liquidity_per_trader ∧
    (OrderBook.empty.run liquidTieEvents).book.liquidity_per_trader.find tagAAA = some 10 ∧
    (OrderBook.empty.run liquidTieEvents).book.liquidity_per_trader.find tagBBB = some 10 ∧
    (OrderBook.empty.run liquidTieEvents).book.liquidity_per_trader.find tagCCC = some 5 ∧
    tagAAA < tagBBB ∧
    (OrderBook.empty.run liquidTieEvents).book.GetMostLiquidTrader.trader = some tagAAA ∧
    ∃ t v, (OrderBook.empty.run liquidTieEvents).book.GetMostLiquidTrader.trader = some t ∧
      (OrderBook.empty.run liquidTieEvents).book.liquidity_per_trader.find t = some v ∧
      (∀ t' v',
        (OrderBook.empty.run liquidTieEvents).book.liquidity_per_trader.find t' = some v' →
          v' ≤ v) ∧
      (∀ t', (OrderBook.empty.run liquidTieEvents).book.liquidity_per_trader.find t' = some v →
        t ≤ t') :=
  ⟨by decide, by decide, by decide, by decide, by decide, by decide, by decide,
    (GetMostLiquidTrader_contract (OrderBook.empty.run liquidTieEvents).book (by decide)
      (by decide)).1 ⟨tagBBB, 10, by decide, by decide⟩⟩

/-- Counterexample to C15 as stated: after a GFD entry of quantity 0 and its good ack (no
violation), the liquidity map is not empty (AAA has value 0), yet `GetMostLiquidTrader`
returns no tag. -/
theorem GetMostLiquidTrader_zero_map :
    (OrderBook.empty.run zeroEntryEvents).violation = none ∧
    (OrderBook.empty.run zeroEntryEvents).book.liquidity_per_trader.entries = [(tagAAA, 0)] ∧
    (OrderBook.empty.run zeroEntryEvents).book.liquidity_per_trader.entries ≠ [] ∧
    (OrderBook.empty.run zeroEntryEvents).book.GetMostLiquidTrader.trader = none := by
  decide

/-- C16 as the code has it: in every book reached from the empty book by a sequence of
events all of whose entries carry a quantity greater than 0, every order in the resting
map (and every pending order) has remaining quantity strictly greater than 0; and an
order is in the resting map exactly while its remaining quantity is non-zero: whatever
event comes next, the order leaves the map if and only if that event is a fill of the
order for its whole remaining quantity, and a fill for less leaves it in the map with the
remaining quantity reduced by the fill quantity. -/
theorem resting_quantities_positive (evs : List Event)
    (hev : ∀ order, Event.entry order ∈ evs → 0 < order.qty) :
    (∀ o order, (OrderBook.empty.run evs).book.resting_orders.find o = some order →
      0 < order.qty) ∧
    (∀ c order, (OrderBook.empty.run evs).book.pending_orders.find c = some order →
      0 < order.qty) ∧
    (∀ o order ev, (OrderBook.empty.run evs).book.resting_orders.find o = some order →
      (((OrderBook.empty.run evs).book.apply ev).book.resting_orders.find o = none ↔
        ∃ f, ev = Event.fill f ∧ f.fill.order_id = o ∧ f.fill.fill_qty = order.qty)) ∧
    (∀ f order,
      (OrderBook.empty.run evs).book.resting_orders.find f.fill.order_id = some order →
      f.fill.fill_qty < order.qty →
      ((OrderBook.empty.run evs).book.apply (Event.fill f)).book.resting_orders.find
        f.fill.order_id = some { order with qty := order.qty - f.fill.fill_qty }) := by
  have h0 : PosQty OrderBook.empty :=
    ⟨fun p hp => (by cases hp), fun p hp => (by cases hp)⟩
  have h := PosQty_run evs OrderBook.empty h0 hev
  have hwf := WF_run evs OrderBook.empty OrderBook.WF_empty_book
  exact ⟨fun o order hf => h.2 (o, order) (mem_of_find _ _ _ hf),
    fun c order hf => h.1 (c, order) (mem_of_find _ _ _ hf),
    fun o order ev hf => resting_leaves_iff _ ev o order hwf hf,
    fun f order hf hlt => resting_after_partial_fill _ f order hf hlt⟩

/-- Witness for C16: after the first three events of the scenario order 500 rests with
quantity 60; a further fill of 10 leaves it resting with 50, a further fill of 60 removes
it. -/
theorem resting_quantities_positive_witness :
    (∀ order, Event.entry order ∈ scenarioEvents.take 3 → 0 < order.qty) ∧
    (OrderBook.empty.run (scenarioEvents.take 3)).book.resting_orders.find 500 =
      some (entryAAA 60 2) ∧
    0 < (entryAAA 60 2).qty ∧
    ((OrderBook.empty.run (scenarioEvents.take 3)).book.apply
      (Event.fill (fill500 60 []))).book.resting_orders.find 500 = none ∧
    ((OrderBook.empty.run (scenarioEvents.take 3)).book.apply
      (Event.fill (fill500 10 []))).book.resting_orders.find 500 = some (entryAAA 50 2) :=
  have hev : ∀ order, Event.entry order ∈ scenarioEvents.take 3 → 0 < order.qty := by
    intro order ho
    simp [scenarioEvents] at ho
    subst ho
    decide
  ⟨hev, by decide,
    (resting_quantities_positive (scenarioEvents.take 3) hev).1 500 (entryAAA 60 2)
      (by decide),
    ((resting_quantities_positive (scenarioEvents.take 3) hev).2.2.1 500 (entryAAA 60 2)
      (Event.fill (fill500 60 [])) (by decide)).2 ⟨fill500 60 [], rfl, by decide, by decide⟩,
    (resting_quantities_positive (scenarioEvents.take 3) hev).2.2.2 (fill500 10 [])
      (entryAAA 60 2) (by decide) (by decide)⟩

/-- Counterexample to C16 as stated: an entry of quantity 0 added to the empty book and
acknowledged good (no violation) rests under order id 500 with remaining quantity 0. -/
theorem resting_quantity_zero :
    (OrderBook.empty.run zeroEntryEvents).violation = none ∧
    (OrderBook.empty.run zeroEntryEvents).book.resting_orders.find 500 = some (entryAAA 0 2) ∧
    ¬ 0 < (entryAAA 0 2).qty := by
  decide

/-- C17 as the code has it: for a pending client id and an ack that `Ack` processes
without violation, the client id is no longer pending afterwards when the status byte is
good or reject; for any other status byte the book, the pending order included, is left
exactly as it was. -/
theorem Ack_pending_afterwards (b : OrderBook) (ack : OrderAck) (order : OrderEntry)
    (hwf : b.WF) (h : b.pending_orders.find ack.client_id = some order)
    (hv : (b.Ack ack).violation = none) :
    ((ack.order_status = OrderStatus.GOOD ∨ ack.order_status = OrderStatus.REJECT) →
      (b.Ack ack).book.pending_orders.find ack.client_id = none) ∧
    (ack.order_status ≠ OrderStatus.GOOD → ack.order_status ≠ OrderStatus.REJECT →
      (b.Ack ack).book = b ∧
      (b.Ack ack).book.pending_orders.find ack.client_id = some order) := by
  refine ⟨?_, ?_⟩
  · intro hs
    by_cases hg : ack.order_status = OrderStatus.GOOD
    · cases hr : b.resting_orders.find ack.order_id with
      | some other =>
        rw [OrderBook.Ack_good_of_resting b ack order other h hg hr] at hv
        cases hv
      | none =>
        rw [OrderBook.Ack_good_of_not_resting b ack order h hg hr]
        exact StdMap.find_erase_self _ _ hwf.1
    · have hj : ack.order_status = OrderStatus.REJECT := hs.resolve_left hg
      rw [OrderBook.Ack_reject b ack order h hj]
      exact StdMap.find_erase_self _ _ hwf.1
  · intro hg hj
    rw [OrderBook.Ack_other_status b ack order h hg hj]
    exact ⟨rfl, h⟩

/-- Witness for C17: the good ack of the scenario leaves client 1 without pending order. -/
theorem Ack_pending_afterwards_witness :
    bookPending.WF ∧
    bookPending.pending_orders.find (ack500 1).client_id = some (entryAAA 100 2) ∧
    (bookPending.Ack (ack500 1)).violation = none ∧
    (bookPending.Ack (ack500 1)).book.pending_orders.find (ack500 1).client_id = none :=
  ⟨by decide, by decide, by decide,
    (Ack_pending_afterwards bookPending (ack500 1) (entryAAA 100 2) (by decide) (by decide)
      (by decide)).1 (Or.inl (by decide))⟩

/-- Counterexample to C17 as stated: an ack for the pending client 1 with status byte 3 is
processed without violation and client 1 is still pending afterwards. -/
theorem Ack_unknown_status_keeps_pending :
    bookPending.pending_orders.find (ack500 3).client_id = some (entryAAA 100 2) ∧
    (bookPending.Ack (ack500 3)).violation = none ∧
    (bookPending.Ack (ack500 3)).book.pending_orders.find (ack500 3).client_id =
      some (entryAAA 100 2) ∧
    (bookPending.Ack (ack500 3)).book.pending_orders.find (ack500 3).client_id ≠ none := by
  decide

/-- C18: an ack and the same ack with any other value in the header's direction field
give the same outcome of `OrderBook::Ack`, violation and book alike; in `main` the case
for acks calls the book without a direction assertion, so there too the direction decides
nothing. -/
theorem Ack_direction_irrelevant (b : OrderBook) (ack : OrderAck) (d : Nat) :
    b.Ack (ack.withDirection d) = b.Ack ack ∧
    (b.Ack (ack.withDirection d)).violation = (b.Ack ack).violation ∧
    (b.Ack (ack.withDirection d)).book = (b.Ack ack).book ∧
    mainCase b (Event.ack (ack.withDirection d)) = mainCase b (Event.ack ack) ∧
    mainCase b (Event.ack ack) = some (b.Ack ack) := by
  have h : b.Ack (ack.withDirection d) = b.Ack ack := rfl
  exact ⟨h, by rw [h], by rw [h], by simp only [mainCase, h], rfl⟩

/-- C19 as the code has it: once an order id is not in the resting map, no later `Add` or
`Fill` and no later ack other than a good ack carrying that same order id puts it back:
after every prefix of a sequence of events in which no good ack carries the order id, the
order id is still absent. -/
theorem removed_order_stays_absent (o : Nat) (b : OrderBook) (evs : List Event)
    (h : b.resting_orders.find o = none)
    (hev : ∀ a, Event.ack a ∈ evs → a.order_status = OrderStatus.GOOD → a.order_id ≠ o) :
    ∀ n, (b.run (evs.take n)).book.resting_orders.find o = none := by
  intro n
  exact absent_run o (evs.take n) b h
    (fun a ha => hev a (List.mem_of_mem_take ha))

/-- Witness for C19: order 500 is removed by the second fill of the scenario; a further
entry, a rejected ack and an unknown fill leave it absent. -/
theorem removed_order_stays_absent_witness :
    (OrderBook.empty.run scenarioEvents).book.resting_orders.find 500 = none ∧
    (∀ a, Event.ack a ∈ [Event.entry (entryAAA 5 2), Event.ack (ack500 2),
        Event.fill (fill500 1 [])] → a.order_status = OrderStatus.GOOD → a.order_id ≠ 500) ∧
    ((OrderBook.empty.run scenarioEvents).book.run
      ([Event.entry (entryAAA 5 2), Event.ack (ack500 2),
        Event.fill (fill500 1 [])].take 2)).book.resting_orders.find 500 = none :=
  have hev : ∀ a, Event.ack a ∈ [Event.entry (entryAAA 5 2), Event.ack (ack500 2),
      Event.fill (fill500 1 [])] → a.order_status = OrderStatus.GOOD → a.order_id ≠ 500 := by
    intro a ha hg
    simp at ha
    subst ha
    exact absurd hg (by decide)
  ⟨by decide, hev,
    removed_order_stays_absent 500 (OrderBook.empty.run scenarioEvents).book _ (by decide) hev 2⟩

/-- Counterexample to C19 as stated: order 500 is filled completely and removed by the
third event; a later entry and a good ack that assigns order id 500 again put it back
into the resting map, without any violation. -/
theorem removed_order_comes_back :
    (OrderBook.empty.run (reuseEvents.take 2)).book.resting_orders.find 500 =
      some (entryAAA 10 2) ∧
    (OrderBook.empty.run (reuseEvents.take 3)).book.resting_orders.find 500 = none ∧
    (OrderBook.empty.run reuseEvents).violation = none ∧
    (OrderBook.empty.run reuseEvents).book.resting_orders.find 500 = some (entryAAA 5 2) := by
  decide

/-- C20: in the book reached from the empty book by a sequence of events none of which
signalled a violation, the sum of all per-instrument volumes plus the sum of the
remaining quantities of all resting orders equals the sum of the quantities of the
entries acknowledged good, that sum being below `2^64`. -/
theorem quantity_conserved (evs : List Event)
    (hv : (OrderBook.empty.run evs).violation = none)
    (hb : ackedQty OrderBook.empty evs < 2 ^ 64) :
    (OrderBook.empty.run evs).book.totalVolume + (OrderBook.empty.run evs).book.totalResting =
      ackedQty OrderBook.empty evs := by
  have h := conservation_run evs OrderBook.empty hv
    (by simpa [OrderBook.totalVolume, OrderBook.totalResting, OrderBook.empty, StdMap.empty]
      using hb)
  simpa [OrderBook.totalVolume, OrderBook.totalResting, OrderBook.empty, StdMap.empty] using h

/-- Witness for C20: after the first three events of the scenario the volume is 40, the
remaining quantity 60 and the acknowledged quantity 100. -/
theorem quantity_conserved_witness :
    (OrderBook.empty.run (scenarioEvents.take 3)).violation = none ∧
    ackedQty OrderBook.empty (scenarioEvents.take 3) = 100 ∧
    (OrderBook.empty.run (scenarioEvents.take 3)).book.totalVolume = 40 ∧
    (OrderBook.empty.run (scenarioEvents.take 3)).book.totalResting = 60 ∧
    (OrderBook.empty.run (scenarioEvents.take 3)).book.totalVolume +
      (OrderBook.empty.run (scenarioEvents.take 3)).book.totalResting =
        ackedQty OrderBook.empty (scenarioEvents.take 3) :=
  ⟨by decide, by decide, by decide, by decide,
    quantity_conserved (scenarioEvents.take 3) (by decide) (by decide)⟩

end OrderBookReplay
